import Mathlib

/-!
Verification of the wake-steering lookup-table design pipeline and runtime
controller of the wind-hybrid-open-controller repository.

The development shallowly embeds, over exact rational arithmetic:

* `whoc/design_tools/wake_steering_design.py`:
  `check_df_opt_ordering`, `apply_static_rate_limits`, `apply_wind_speed_ramps`,
  `compute_hysteresis_zones`, `get_yaw_angles_interpolant`;
* `whoc/controllers/lookup_based_wake_steering_controller.py`:
  `LookupBasedWakeSteeringController` (constructor and `wake_steering_angles`).

A yaw-offset lookup table (pandas DataFrame with columns `wind_direction`,
`wind_speed`, `turbulence_intensity`, `yaw_angles_opt`) is modelled as a list
of rows; numpy arrays become Lean lists or total index functions; a Python
`raise` becomes `Except.error` carrying a constructor that identifies the
exception raised.
-/

set_option maxHeartbeats 1000000
set_option maxRecDepth 4000

/-- One row of a yaw-offset lookup table `df_opt`: the three ambient-condition
columns and the per-turbine offset vector `yaw_angles_opt`. -/
structure OptRow where
  wd : ℚ
  ws : ℚ
  ti : ℚ
  offsets : List ℚ
  deriving DecidableEq, Repr

instance : Inhabited OptRow := ⟨⟨0, 0, 0, []⟩⟩

/-- A yaw-offset lookup table: the DataFrame `df_opt`, as its list of rows. -/
abbrev DfOpt := List OptRow

/-- The Python exceptions raised by the embedded functions, one constructor per
distinct raise site (argument-free except for the interpolant bounds error,
which carries the data printed in its message). -/
inductive DesignError where
  /-- `IndexError` from `wd_array[1]` or `ws_array[1]` on a too-short axis. -/
  | indexError
  /-- `ValueError` from `np.vstack` on an empty table. -/
  | emptyTable
  /-- `ValueError` from `np.vstack` on rows with inconsistent offset lengths. -/
  | raggedOffsets
  /-- `check_df_opt_ordering`: not all axis combinations are present. -/
  | incompleteCombinations
  /-- `check_df_opt_ordering`: rows not ordered wd-slowest, ti-fastest. -/
  | wrongOrdering
  /-- `apply_wind_speed_ramps`: ramp breakpoints out of order. -/
  | rampOrderInvalid
  /-- `apply_wind_speed_ramps`: more than one wind speed in the table. -/
  | multipleWindSpeeds
  /-- `apply_wind_speed_ramps`: table wind speed outside fully-engaged limits. -/
  | windSpeedOutsideEngaged
  /-- `compute_hysteresis_zones`: single wind direction. -/
  | singleWindDirection
  /-- `np.max`/`np.min` of an empty selection while locating a zone bound. -/
  | emptyZoneBound
  /-- `RegularGridInterpolator`: grid points not strictly ascending. -/
  | nonAscendingGrid
  /-- Controller constructor: hysteresis zones given without yaw offsets. -/
  | hysteresisWithoutOffsets
  /-- Controller constructor: yaw initial condition of the wrong length. -/
  | badYawInitialCondition
  /-- Interpolant queried outside its padded bounds; carries the axis bounds
  and the queried values, the data of the raised message. -/
  | outOfBounds (wdMin wdMax wsMin wsMax tiMin tiMax wd ws ti : ℚ)
  /-- Interpolant queried on arrays with some entry outside its padded bounds;
  carries the axis bounds and the queried arrays, the data of the message. -/
  | outOfBoundsVec (wdMin wdMax wsMin wsMax tiMin tiMax : ℚ)
      (wds wss tis : List ℚ)
  /-- `NotImplementedError`: hysteresis in the runtime controller. -/
  | notImplemented
  deriving DecidableEq, Repr

instance {ε α : Type} [DecidableEq ε] [DecidableEq α] : DecidableEq (Except ε α) := fun x y =>
  match x, y with
  | .ok a, .ok b =>
      if h : a = b then isTrue (by rw [h]) else isFalse (by intro hc; cases hc; exact h rfl)
  | .error a, .error b =>
      if h : a = b then isTrue (by rw [h]) else isFalse (by intro hc; cases hc; exact h rfl)
  | .ok _, .error _ => isFalse (by intro hc; cases hc)
  | .error _, .ok _ => isFalse (by intro hc; cases hc)

/-! ## np.unique: sorted list of distinct values -/

/-- Insert `x` into a (sorted, duplicate-free) list, keeping it sorted and
skipping `x` if already present. -/
def insertUnique (x : ℚ) : List ℚ → List ℚ
  | [] => [x]
  | y :: ys => if x < y then x :: y :: ys else if x = y then y :: ys else y :: insertUnique x ys

/-- `np.unique`: the sorted list of distinct values of a list. -/
def uniqueSorted (l : List ℚ) : List ℚ := l.foldr insertUnique []

/-- Strict ascending check on a list, `True` on lists of length below two. -/
def strictAscB : List ℚ → Bool
  | [] => true
  | [_] => true
  | a :: b :: r => decide (a < b) && strictAscB (b :: r)

theorem strictAscB_tail {a : ℚ} {l : List ℚ} (h : strictAscB (a :: l) = true) :
    strictAscB l = true := by
  cases l with
  | nil => rfl
  | cons b r =>
      have := h
      simp only [strictAscB, Bool.and_eq_true, decide_eq_true_eq] at this
      exact this.2

theorem insertUnique_ne_nil (x : ℚ) (l : List ℚ) : insertUnique x l ≠ [] := by
  cases l with
  | nil => simp [insertUnique]
  | cons y ys =>
      unfold insertUnique
      split
      · simp
      · split <;> simp

theorem uniqueSorted_eq_nil_iff (l : List ℚ) : uniqueSorted l = [] ↔ l = [] := by
  cases l with
  | nil => simp [uniqueSorted]
  | cons a r =>
      simp only [uniqueSorted, List.foldr_cons]
      constructor
      · intro h; exact absurd h (insertUnique_ne_nil a _)
      · intro h; cases h

theorem strictAscB_cons_head_lt {a : ℚ} {l : List ℚ} (h : strictAscB (a :: l) = true) :
    ∀ y ∈ l, a < y := by
  induction l generalizing a with
  | nil => intro y hy; cases hy
  | cons b r ih =>
      simp only [strictAscB, Bool.and_eq_true, decide_eq_true_eq] at h
      intro y hy
      rcases List.mem_cons.mp hy with rfl | hy
      · exact h.1
      · exact h.1.trans (ih h.2 y hy)

theorem strictAscB_insertUnique (x : ℚ) (l : List ℚ) (h : strictAscB l = true) :
    strictAscB (insertUnique x l) = true := by
  induction l with
  | nil => simp [insertUnique, strictAscB]
  | cons y ys ih =>
      unfold insertUnique
      split
      · rename_i hlt
        simpa [strictAscB, hlt] using h
      · split
        · exact h
        · rename_i hnlt hne
          have hyx : y < x := by
            rcases lt_trichotomy x y with h1 | h1 | h1
            · exact absurd h1 hnlt
            · exact absurd h1 hne
            · exact h1
          have htail := strictAscB_tail h
          have hins := ih htail
          -- strictAscB (y :: insertUnique x ys)
          cases hys : insertUnique x ys with
          | nil => exact absurd hys (insertUnique_ne_nil x ys)
          | cons z zs =>
              have hz : y < z := by
                -- z is either x or a member of ys
                cases ys with
                | nil =>
                    simp only [insertUnique] at hys
                    cases hys; exact hyx
                | cons w ws =>
                    have hyw : y < w := by
                      have := strictAscB_cons_head_lt h
                      exact this w (by simp)
                    unfold insertUnique at hys
                    split at hys
                    · cases hys; exact hyx
                    · split at hys
                      · cases hys; exact hyw
                      · cases hys
                        exact hyw
              rw [hys] at hins
              simp only [strictAscB, Bool.and_eq_true, decide_eq_true_eq]
              exact ⟨hz, hins⟩

theorem strictAscB_uniqueSorted (l : List ℚ) : strictAscB (uniqueSorted l) = true := by
  induction l with
  | nil => rfl
  | cons a r ih => exact strictAscB_insertUnique a _ ih

/-! ## check_df_opt_ordering -/

/-- Number of distinct wind directions in the table (`len(wd_unique)`). -/
def wdCount (df : DfOpt) : ℕ := (uniqueSorted (df.map OptRow.wd)).length

/-- Number of distinct wind speeds in the table (`len(ws_unique)`). -/
def wsCount (df : DfOpt) : ℕ := (uniqueSorted (df.map OptRow.ws)).length

/-- Number of distinct turbulence intensities in the table (`len(ti_unique)`). -/
def tiCount (df : DfOpt) : ℕ := (uniqueSorted (df.map OptRow.ti)).length

/-- Number of turbines: the width of the stacked offsets `np.vstack(...)`,
taken from the first row. -/
def turbCount (df : DfOpt) : ℕ := (df.headD default).offsets.length

/-- `check_df_opt_ordering(df_opt)`: checks that every combination of the three
axis values appears exactly once and that rows iterate wind direction slowest,
then wind speed, then turbulence intensity fastest.  The numpy reshape-and-
broadcast comparison of the source is expressed per flat row index `r`, whose
row-major coordinates are `(r / (S*T), r / T % S, r % T)`. -/
def checkDfOptOrdering (df : DfOpt) : Except DesignError Unit :=
  let wdU := uniqueSorted (df.map OptRow.wd)
  let wsU := uniqueSorted (df.map OptRow.ws)
  let tiU := uniqueSorted (df.map OptRow.ti)
  if df.length = wdU.length * (wsU.length * tiU.length) then
    if (List.range df.length).all (fun r =>
        decide ((df.map OptRow.wd).getD r 0 = wdU.getD (r / (wsU.length * tiU.length)) 0)
        && decide ((df.map OptRow.ws).getD r 0 = wsU.getD (r / tiU.length % wsU.length) 0)
        && decide ((df.map OptRow.ti).getD r 0 = tiU.getD (r % tiU.length) 0)) then
      .ok ()
    else .error .wrongOrdering
  else .error .incompleteCombinations

/-! ## apply_static_rate_limits

The bidirectional clip-and-propagate sweeps of `apply_static_rate_limits`
operate on the 4-D offsets array, one axis at a time.  Each swept line is a
total function `ℕ → ℚ`, the relevant length being passed separately. -/

/-- `np.clip(x, lo, hi)`, which is `min(max(x, lo), hi)` (so all values collapse
to `hi` when `lo > hi`). -/
def npClip (x lo hi : ℚ) : ℚ := min (max x lo) hi

/-- The forward clip-and-propagate sweep: entry `0` is kept, and entry `i+1`
becomes the previous propagated value plus the delta clipped to `[-c, c]`. -/
def fwdLimited (c : ℚ) (f : ℕ → ℚ) : ℕ → ℚ
  | 0 => f 0
  | i + 1 => fwdLimited c f i + npClip (f (i + 1) - fwdLimited c f i) (-c) c

/-- The backward sweep over a line of length `n`: the forward sweep of the
reversed line, read back at the reversed position. -/
def bwdLimited (c : ℚ) (f : ℕ → ℚ) (n : ℕ) (i : ℕ) : ℚ :=
  fwdLimited c (fun j => f (n - 1 - j)) (n - 1 - i)

/-- One axis pass of `apply_static_rate_limits`: the elementwise average of the
forward and backward sweeps. -/
def rateLimit1D (c : ℚ) (n : ℕ) (f : ℕ → ℚ) (i : ℕ) : ℚ :=
  (fwdLimited c f i + bwdLimited c f n i) / 2

/-- A dense 4-D offsets array indexed `[wd, ws, ti, turbine]`, total with
default `0` outside the grid. -/
abbrev Arr4 := ℕ → ℕ → ℕ → ℕ → ℚ

/-- The wind-direction axis pass (`axis 0`, lines of length `W`). -/
def wdStage (c : ℚ) (W : ℕ) (A : Arr4) : Arr4 :=
  fun i j k t => rateLimit1D c W (fun m => A m j k t) i

/-- The wind-speed axis pass (`axis 1`, lines of length `S`). -/
def wsStage (c : ℚ) (S : ℕ) (A : Arr4) : Arr4 :=
  fun i j k t => rateLimit1D c S (fun m => A i m k t) j

/-- The turbulence-intensity axis pass (`axis 2`, lines of length `T`). -/
def tiStage (c : ℚ) (T : ℕ) (A : Arr4) : Arr4 :=
  fun i j k t => rateLimit1D c T (fun m => A i j m t) k

/-- All three axis passes in source order: wind direction, then wind speed,
then turbulence intensity, each on the previous output.  The clip bounds
`cw`, `cs`, `ct` are the products rate limit times axis step. -/
def limitedArr (cw cs ct : ℚ) (W S T : ℕ) (A : Arr4) : Arr4 :=
  tiStage ct T (wsStage cs S (wdStage cw W A))

/-- The 4-D view of a table's offsets (`offsets_all.reshape((W, S, T, N))`):
row-major flat index `(i*S + j)*T + k`, then turbine `t`. -/
def tableArr (df : DfOpt) (S T : ℕ) : Arr4 :=
  fun i j k t => ((df.getD ((i * S + j) * T + k) default).offsets).getD t 0

/-- Rebuild the output table: same condition columns, offsets replaced by the
rate-limited array flattened back to rows. -/
def rateLimitedTable (df : DfOpt) (W S T N : ℕ) (cw cs ct : ℚ) : DfOpt :=
  let L := limitedArr cw cs ct W S T (tableArr df S T)
  (List.range df.length).map (fun r =>
    { wd := (df.getD r default).wd
      ws := (df.getD r default).ws
      ti := (df.getD r default).ti
      offsets := (List.range N).map (fun t => L (r / (S * T)) (r / T % S) (r % T) t) })

/-- `apply_static_rate_limits(df_opt, wd_rate_limit, ws_rate_limit,
ti_rate_limit)`.  Mirrors the source order of failure: `np.vstack` first
(empty or ragged offsets), then the axis steps `wd_array[1] - wd_array[0]` and
`ws_array[1] - ws_array[0]` (an `IndexError` when either axis has fewer than
two distinct values; only the turbulence-intensity step is guarded by a length
check, defaulting to `1`), then `check_df_opt_ordering`. -/
def applyStaticRateLimits (df : DfOpt) (wdRateLimit wsRateLimit tiRateLimit : ℚ) :
    Except DesignError DfOpt :=
  if df.isEmpty then .error .emptyTable
  else if ¬ (df.all fun r => r.offsets.length = turbCount df) then .error .raggedOffsets
  else
    let wdU := uniqueSorted (df.map OptRow.wd)
    let wsU := uniqueSorted (df.map OptRow.ws)
    let tiU := uniqueSorted (df.map OptRow.ti)
    if 2 ≤ wdU.length ∧ 2 ≤ wsU.length then
      let wdStep := wdU.getD 1 0 - wdU.getD 0 0
      let wsStep := wsU.getD 1 0 - wsU.getD 0 0
      let tiStep := if 1 < tiU.length then tiU.getD 1 0 - tiU.getD 0 0 else 1
      match checkDfOptOrdering df with
      | .error e => .error e
      | .ok () =>
          .ok (rateLimitedTable df wdU.length wsU.length tiU.length (turbCount df)
            (wdRateLimit * wdStep) (wsRateLimit * wsStep) (tiRateLimit * tiStep))
    else .error .indexError

/-- The wind-direction step `wd_array[1] - wd_array[0]` of a table. -/
def wdStepOf (df : DfOpt) : ℚ :=
  (uniqueSorted (df.map OptRow.wd)).getD 1 0 - (uniqueSorted (df.map OptRow.wd)).getD 0 0

/-- The wind-speed step `ws_array[1] - ws_array[0]` of a table. -/
def wsStepOf (df : DfOpt) : ℚ :=
  (uniqueSorted (df.map OptRow.ws)).getD 1 0 - (uniqueSorted (df.map OptRow.ws)).getD 0 0

/-- The turbulence-intensity step, guarded to `1` on a single-value axis. -/
def tiStepOf (df : DfOpt) : ℚ :=
  let tiU := uniqueSorted (df.map OptRow.ti)
  if 1 < tiU.length then tiU.getD 1 0 - tiU.getD 0 0 else 1

/-- Flat row index of grid point `(i, j, k)` in a table with `S` wind speeds
and `T` turbulence intensities. -/
def flatIdx (S T i j k : ℕ) : ℕ := (i * S + j) * T + k

/-- Offset of turbine `t` in row `r` of a table. -/
def tableOffset (df : DfOpt) (r t : ℕ) : ℚ := ((df.getD r default).offsets).getD t 0

/-! ### Properties of the 1-D sweeps -/

theorem fwdLimited_succ_clamp (c : ℚ) (f : ℕ → ℚ) (i : ℕ) :
    fwdLimited c f (i + 1) =
      min (max (f (i + 1)) (fwdLimited c f i - c)) (fwdLimited c f i + c) := by
  show fwdLimited c f i + npClip (f (i + 1) - fwdLimited c f i) (-c) c = _
  unfold npClip
  simp only [min_def, max_def]
  split_ifs <;> linarith

/-- Adjacent values of the forward sweep differ by at most the clip bound. -/
theorem abs_fwdLimited_succ_sub (c : ℚ) (hc : 0 ≤ c) (f : ℕ → ℚ) (i : ℕ) :
    |fwdLimited c f (i + 1) - fwdLimited c f i| ≤ c := by
  rw [fwdLimited_succ_clamp]
  set p := fwdLimited c f i with hp
  rw [abs_le]
  constructor
  · have h1 : p - c ≤ max (f (i + 1)) (p - c) := le_max_right _ _
    have h2 : p - c ≤ p + c := by linarith
    have := le_min h1 h2
    linarith [this]
  · have := min_le_right (max (f (i + 1)) (p - c)) (p + c)
    linarith

/-- The forward sweep is 1-Lipschitz as a function of the whole input line. -/
theorem abs_fwdLimited_dist (c L : ℚ) (f g : ℕ → ℚ) (h : ∀ m, |f m - g m| ≤ L) :
    ∀ i, |fwdLimited c f i - fwdLimited c g i| ≤ L := by
  intro i
  induction i with
  | zero => exact h 0
  | succ i ih =>
      rw [fwdLimited_succ_clamp, fwdLimited_succ_clamp]
      refine le_trans (abs_min_sub_min_le_max _ _ _ _) (max_le ?_ ?_)
      · refine le_trans (abs_max_sub_max_le_max _ _ _ _) (max_le (h (i + 1)) ?_)
        calc |fwdLimited c f i - c - (fwdLimited c g i - c)|
            = |fwdLimited c f i - fwdLimited c g i| := by ring_nf
          _ ≤ L := ih
      · calc |fwdLimited c f i + c - (fwdLimited c g i + c)|
            = |fwdLimited c f i - fwdLimited c g i| := by ring_nf
          _ ≤ L := ih

/-- On a line whose adjacent deltas already satisfy the bound, the forward
sweep is the identity (up to the line length). -/
theorem fwdLimited_eq_self (c : ℚ) (n : ℕ) (f : ℕ → ℚ)
    (h : ∀ m, m + 1 < n → |f (m + 1) - f m| ≤ c) :
    ∀ i, i < n → fwdLimited c f i = f i := by
  intro i
  induction i with
  | zero => intro _; rfl
  | succ i ih =>
      intro hi
      have hfi : fwdLimited c f i = f i := ih (Nat.lt_of_succ_lt hi)
      rw [fwdLimited_succ_clamp, hfi]
      have hb := h i hi
      rw [abs_le] at hb
      rw [max_eq_left (by linarith), min_eq_left (by linarith)]

/-- Adjacent values of the backward sweep differ by at most the clip bound. -/
theorem abs_bwdLimited_succ_sub (c : ℚ) (hc : 0 ≤ c) (f : ℕ → ℚ) (n i : ℕ)
    (hi : i + 1 < n) :
    |bwdLimited c f n (i + 1) - bwdLimited c f n i| ≤ c := by
  unfold bwdLimited
  have hrw : n - 1 - i = (n - 1 - (i + 1)) + 1 := by omega
  rw [hrw]
  rw [abs_sub_comm]
  exact abs_fwdLimited_succ_sub c hc _ _

/-- The backward sweep is 1-Lipschitz as a function of the whole input line. -/
theorem abs_bwdLimited_dist (c L : ℚ) (f g : ℕ → ℚ) (h : ∀ m, |f m - g m| ≤ L)
    (n i : ℕ) : |bwdLimited c f n i - bwdLimited c g n i| ≤ L := by
  unfold bwdLimited
  exact abs_fwdLimited_dist c L _ _ (fun m => h _) _

/-- On a line whose adjacent deltas already satisfy the bound, the backward
sweep is the identity (up to the line length). -/
theorem bwdLimited_eq_self (c : ℚ) (n : ℕ) (f : ℕ → ℚ)
    (h : ∀ m, m + 1 < n → |f (m + 1) - f m| ≤ c) :
    ∀ i, i < n → bwdLimited c f n i = f i := by
  intro i hi
  unfold bwdLimited
  have hrev : ∀ m, m + 1 < n → |f (n - 1 - (m + 1)) - f (n - 1 - m)| ≤ c := by
    intro m hm
    have hrw : n - 1 - m = (n - 1 - (m + 1)) + 1 := by omega
    rw [hrw, abs_sub_comm]
    exact h _ (by omega)
  have := fwdLimited_eq_self c n (fun j => f (n - 1 - j)) hrev (n - 1 - i) (by omega)
  rw [this]
  show f (n - 1 - (n - 1 - i)) = f i
  congr 1
  omega

/-- Adjacent values of one full axis pass differ by at most the clip bound. -/
theorem abs_rateLimit1D_succ_sub (c : ℚ) (hc : 0 ≤ c) (n : ℕ) (f : ℕ → ℚ) (i : ℕ)
    (hi : i + 1 < n) :
    |rateLimit1D c n f (i + 1) - rateLimit1D c n f i| ≤ c := by
  unfold rateLimit1D
  have h1 := abs_fwdLimited_succ_sub c hc f i
  have h2 := abs_bwdLimited_succ_sub c hc f n i hi
  rw [abs_le] at h1 h2 ⊢
  constructor <;> [skip; skip] <;> (obtain ⟨a1, b1⟩ := h1; obtain ⟨a2, b2⟩ := h2) <;> linarith

/-- One full axis pass is 1-Lipschitz as a function of the whole input line. -/
theorem abs_rateLimit1D_dist (c L : ℚ) (n : ℕ) (f g : ℕ → ℚ)
    (h : ∀ m, |f m - g m| ≤ L) (i : ℕ) :
    |rateLimit1D c n f i - rateLimit1D c n g i| ≤ L := by
  unfold rateLimit1D
  have h1 := abs_fwdLimited_dist c L f g h i
  have h2 := abs_bwdLimited_dist c L f g h n i
  rw [abs_le] at h1 h2 ⊢
  constructor <;> (obtain ⟨a1, b1⟩ := h1; obtain ⟨a2, b2⟩ := h2) <;> linarith

/-- On a line whose adjacent deltas already satisfy the bound, one full axis
pass is the identity (up to the line length). -/
theorem rateLimit1D_eq_self (c : ℚ) (n : ℕ) (f : ℕ → ℚ)
    (h : ∀ m, m + 1 < n → |f (m + 1) - f m| ≤ c) (i : ℕ) (hi : i < n) :
    rateLimit1D c n f i = f i := by
  unfold rateLimit1D
  rw [fwdLimited_eq_self c n f h i hi, bwdLimited_eq_self c n f h i hi]
  ring

/-- The sweeps only read the line up to its length, so one full axis pass
respects pointwise equality on the line. -/
theorem rateLimit1D_congr (c : ℚ) (n : ℕ) (f g : ℕ → ℚ)
    (h : ∀ m, m < n → f m = g m) (i : ℕ) (hi : i < n) :
    rateLimit1D c n f i = rateLimit1D c n g i := by
  have hfwd : ∀ j, j < n → fwdLimited c f j = fwdLimited c g j := by
    intro j
    induction j with
    | zero => intro hj; show f 0 = g 0; exact h 0 hj
    | succ j ih =>
        intro hj
        have hj' := Nat.lt_of_succ_lt hj
        unfold fwdLimited
        rw [ih hj', h (j + 1) hj]
  unfold rateLimit1D bwdLimited
  rw [hfwd i hi]
  have : fwdLimited c (fun j => f (n - 1 - j)) (n - 1 - i)
      = fwdLimited c (fun j => g (n - 1 - j)) (n - 1 - i) := by
    have hrevranges : ∀ j, j ≤ n - 1 → f (n - 1 - j) = g (n - 1 - j) := by
      intro j hj
      exact h _ (by omega)
    -- reprove by the same induction, bounded by n - 1 - i ≤ n - 1
    clear hfwd
    have : ∀ m, m ≤ n - 1 → fwdLimited c (fun j => f (n - 1 - j)) m
        = fwdLimited c (fun j => g (n - 1 - j)) m := by
      intro m
      induction m with
      | zero => intro _; show f (n - 1 - 0) = g (n - 1 - 0); exact hrevranges 0 (by omega)
      | succ m ih =>
          intro hm
          unfold fwdLimited
          rw [ih (by omega), hrevranges (m + 1) hm]
    exact this _ (by omega)
  rw [this]

/-! ### Axis bounds of the full three-pass limiter -/

/-- After all three passes, adjacent samples along the wind-direction axis
differ by at most the wind-direction clip bound. -/
theorem limitedArr_wd_bound (cw cs ct : ℚ) (hcw : 0 ≤ cw) (W S T : ℕ) (A : Arr4)
    (i j k t : ℕ) (hi : i + 1 < W) :
    |limitedArr cw cs ct W S T A (i + 1) j k t - limitedArr cw cs ct W S T A i j k t| ≤ cw := by
  unfold limitedArr tiStage
  refine abs_rateLimit1D_dist ct cw T _ _ (fun m => ?_) k
  unfold wsStage
  refine abs_rateLimit1D_dist cs cw S _ _ (fun m2 => ?_) j
  unfold wdStage
  exact abs_rateLimit1D_succ_sub cw hcw W _ i hi

/-- After all three passes, adjacent samples along the wind-speed axis differ
by at most the wind-speed clip bound. -/
theorem limitedArr_ws_bound (cw cs ct : ℚ) (hcs : 0 ≤ cs) (W S T : ℕ) (A : Arr4)
    (i j k t : ℕ) (hj : j + 1 < S) :
    |limitedArr cw cs ct W S T A i (j + 1) k t - limitedArr cw cs ct W S T A i j k t| ≤ cs := by
  unfold limitedArr tiStage
  refine abs_rateLimit1D_dist ct cs T _ _ (fun m => ?_) k
  unfold wsStage
  exact abs_rateLimit1D_succ_sub cs hcs S _ j hj

/-- After all three passes, adjacent samples along the turbulence-intensity
axis differ by at most the turbulence-intensity clip bound. -/
theorem limitedArr_ti_bound (cw cs ct : ℚ) (hct : 0 ≤ ct) (W S T : ℕ) (A : Arr4)
    (i j k t : ℕ) (hk : k + 1 < T) :
    |limitedArr cw cs ct W S T A i j (k + 1) t - limitedArr cw cs ct W S T A i j k t| ≤ ct := by
  unfold limitedArr tiStage
  exact abs_rateLimit1D_succ_sub ct hct T _ k hk

/-- On an array already satisfying all three axis bounds on the grid, the full
three-pass limiter is the identity on the grid. -/
theorem limitedArr_eq_self (cw cs ct : ℚ) (W S T : ℕ) (A : Arr4)
    (hw : ∀ i j k t, i + 1 < W → j < S → k < T → |A (i + 1) j k t - A i j k t| ≤ cw)
    (hs : ∀ i j k t, i < W → j + 1 < S → k < T → |A i (j + 1) k t - A i j k t| ≤ cs)
    (ht : ∀ i j k t, i < W → j < S → k + 1 < T → |A i j (k + 1) t - A i j k t| ≤ ct)
    (i j k t : ℕ) (hi : i < W) (hj : j < S) (hk : k < T) :
    limitedArr cw cs ct W S T A i j k t = A i j k t := by
  have hB : ∀ i' j' k' t', i' < W → j' < S → k' < T →
      wdStage cw W A i' j' k' t' = A i' j' k' t' := by
    intro i' j' k' t' hi' hj' hk'
    exact rateLimit1D_eq_self cw W (fun m => A m j' k' t')
      (fun m hm => hw m j' k' t' hm hj' hk') i' hi'
  have hC : ∀ i' j' k' t', i' < W → j' < S → k' < T →
      wsStage cs S (wdStage cw W A) i' j' k' t' = A i' j' k' t' := by
    intro i' j' k' t' hi' hj' hk'
    have hcg := rateLimit1D_congr cs S (fun m => wdStage cw W A i' m k' t')
      (fun m => A i' m k' t') (fun m hm => hB i' m k' t' hi' hm hk') j' hj'
    have hid := rateLimit1D_eq_self cs S (fun m => A i' m k' t')
      (fun m hm => hs i' m k' t' hi' hm hk') j' hj'
    show rateLimit1D cs S (fun m => wdStage cw W A i' m k' t') j' = A i' j' k' t'
    rw [hcg, hid]
  have hcg2 := rateLimit1D_congr ct T (fun m => wsStage cs S (wdStage cw W A) i j m t)
    (fun m => A i j m t) (fun m hm => hC i j m t hi hj hm) k hk
  have hid2 := rateLimit1D_eq_self ct T (fun m => A i j m t)
    (fun m hm => ht i j m t hi hj hm) k hk
  show rateLimit1D ct T (fun m => wsStage cs S (wdStage cw W A) i j m t) k = A i j k t
  rw [hcg2, hid2]

/-! ### From table success to array facts -/

theorem strictAscB_getD_lt (l : List ℚ) (h : strictAscB l = true) (h2 : 2 ≤ l.length) :
    l.getD 0 0 < l.getD 1 0 := by
  match l, h2 with
  | a :: b :: r, _ =>
      simp only [strictAscB, Bool.and_eq_true, decide_eq_true_eq] at h
      simpa using h.1

theorem wdStepOf_pos (df : DfOpt) (h2 : 2 ≤ wdCount df) : 0 < wdStepOf df := by
  have := strictAscB_getD_lt _ (strictAscB_uniqueSorted (df.map OptRow.wd)) h2
  unfold wdStepOf
  linarith

theorem wsStepOf_pos (df : DfOpt) (h2 : 2 ≤ wsCount df) : 0 < wsStepOf df := by
  have := strictAscB_getD_lt _ (strictAscB_uniqueSorted (df.map OptRow.ws)) h2
  unfold wsStepOf
  linarith

theorem tiStepOf_pos (df : DfOpt) : 0 < tiStepOf df := by
  rw [tiStepOf]
  split
  · rename_i h1
    exact sub_pos.mpr
      (strictAscB_getD_lt _ (strictAscB_uniqueSorted (df.map OptRow.ti)) h1)
  · norm_num

theorem checkDfOptOrdering_ok_length (df : DfOpt) (h : checkDfOptOrdering df = .ok ()) :
    df.length = wdCount df * (wsCount df * tiCount df) := by
  simp only [checkDfOptOrdering] at h
  split at h
  · assumption
  · cases h

theorem applyStaticRateLimits_ok (df df' : DfOpt) (cw cs ct : ℚ)
    (h : applyStaticRateLimits df cw cs ct = .ok df') :
    df.length = wdCount df * (wsCount df * tiCount df)
    ∧ 2 ≤ wdCount df ∧ 2 ≤ wsCount df
    ∧ (df.all fun r => r.offsets.length = turbCount df) = true
    ∧ checkDfOptOrdering df = .ok ()
    ∧ df' = rateLimitedTable df (wdCount df) (wsCount df) (tiCount df) (turbCount df)
        (cw * wdStepOf df) (cs * wsStepOf df) (ct * tiStepOf df) := by
  simp only [applyStaticRateLimits] at h
  split at h
  · cases h
  · split at h
    · cases h
    · rename_i hragged
      split at h
      · rename_i hlen
        split at h
        · cases h
        · rename_i u hchk
          rw [Except.ok.injEq] at h
          refine ⟨checkDfOptOrdering_ok_length df hchk, hlen.1, hlen.2, ?_, hchk, h.symm⟩
          simpa using hragged
      · cases h

theorem getD_range_map {α : Type} [Inhabited α] (f : ℕ → α) (n r : ℕ) (h : r < n) :
    ((List.range n).map f).getD r default = f r := by
  rw [List.getD_eq_getElem?_getD, List.getElem?_map, List.getElem?_range h]
  rfl

theorem tableOffset_rateLimitedTable (df : DfOpt) (W S T N : ℕ) (cw cs ct : ℚ)
    (r t : ℕ) (hr : r < df.length) (ht : t < N) :
    tableOffset (rateLimitedTable df W S T N cw cs ct) r t
      = limitedArr cw cs ct W S T (tableArr df S T) (r / (S * T)) (r / T % S) (r % T) t := by
  unfold tableOffset rateLimitedTable
  rw [getD_range_map _ df.length r hr]
  simp only
  rw [List.getD_eq_getElem?_getD, List.getElem?_map, List.getElem?_range ht]
  rfl

theorem flatIdx_lt (W S T i j k : ℕ) (hi : i < W) (hj : j < S) (hk : k < T) :
    flatIdx S T i j k < W * (S * T) := by
  unfold flatIdx
  calc (i * S + j) * T + k < (i * S + j) * T + T := by omega
    _ = (i * S + j + 1) * T := by ring
    _ ≤ (W * S) * T := by
        have : i * S + j + 1 ≤ W * S := by
          calc i * S + j + 1 ≤ i * S + S := by omega
            _ = (i + 1) * S := by ring
            _ ≤ W * S := Nat.mul_le_mul_right S hi
        exact Nat.mul_le_mul_right T this
    _ = W * (S * T) := by ring

theorem flatIdx_coords (S T i j k : ℕ) (hj : j < S) (hk : k < T) :
    flatIdx S T i j k / (S * T) = i ∧ flatIdx S T i j k / T % S = j
      ∧ flatIdx S T i j k % T = k := by
  have hS : 0 < S := by omega
  have hT : 0 < T := by omega
  unfold flatIdx
  have h1 : (i * S + j) * T + k = (S * T) * i + (T * j + k) := by ring
  have hlt : T * j + k < S * T := by
    calc T * j + k < T * j + T := by omega
      _ = T * (j + 1) := by ring
      _ ≤ T * S := Nat.mul_le_mul_left T hj
      _ = S * T := Nat.mul_comm T S
  refine ⟨?_, ?_, ?_⟩
  · rw [h1, Nat.mul_add_div (by positivity), Nat.div_eq_of_lt hlt]
    rfl
  · have h2 : (i * S + j) * T + k = T * (i * S + j) + k := by ring
    rw [h2, Nat.mul_add_div hT, Nat.div_eq_of_lt hk, Nat.add_zero]
    have h3 : i * S + j = S * i + j := by ring
    rw [h3, Nat.mul_add_mod, Nat.mod_eq_of_lt hj]
  · have h2 : (i * S + j) * T + k = T * (i * S + j) + k := by ring
    rw [h2, Nat.mul_add_mod, Nat.mod_eq_of_lt hk]

/-! ## Claim C2: rate limiting bound -/

/-- Auxiliary form of the rate-limiting bound, shared by the idempotence
proof. -/
theorem rateLimits_bounds_aux (df df' : DfOpt) (cw cs ct : ℚ)
    (hcw : 0 ≤ cw) (hcs : 0 ≤ cs) (hct : 0 ≤ ct)
    (hok : applyStaticRateLimits df cw cs ct = .ok df') (i j k t : ℕ)
    (htN : t < turbCount df) :
    (i + 1 < wdCount df → j < wsCount df → k < tiCount df →
      |tableOffset df' (flatIdx (wsCount df) (tiCount df) (i + 1) j k) t
        - tableOffset df' (flatIdx (wsCount df) (tiCount df) i j k) t|
        ≤ cw * wdStepOf df)
    ∧ (i < wdCount df → j + 1 < wsCount df → k < tiCount df →
      |tableOffset df' (flatIdx (wsCount df) (tiCount df) i (j + 1) k) t
        - tableOffset df' (flatIdx (wsCount df) (tiCount df) i j k) t|
        ≤ cs * wsStepOf df)
    ∧ (i < wdCount df → j < wsCount df → k + 1 < tiCount df →
      |tableOffset df' (flatIdx (wsCount df) (tiCount df) i j (k + 1)) t
        - tableOffset df' (flatIdx (wsCount df) (tiCount df) i j k) t|
        ≤ ct * tiStepOf df) := by
  obtain ⟨hlen, hW, hS, hall, hchk, hdf'⟩ := applyStaticRateLimits_ok df df' cw cs ct hok
  subst hdf'
  refine ⟨?_, ?_, ?_⟩
  · intro hi hj hk
    have hr1 : flatIdx (wsCount df) (tiCount df) (i + 1) j k < df.length := by
      rw [hlen]; exact flatIdx_lt _ _ _ _ _ _ hi hj hk
    have hr0 : flatIdx (wsCount df) (tiCount df) i j k < df.length := by
      rw [hlen]; exact flatIdx_lt _ _ _ _ _ _ (by omega) hj hk
    rw [tableOffset_rateLimitedTable df _ _ _ _ _ _ _ _ _ hr1 htN,
        tableOffset_rateLimitedTable df _ _ _ _ _ _ _ _ _ hr0 htN]
    obtain ⟨e1, e2, e3⟩ := flatIdx_coords (wsCount df) (tiCount df) (i + 1) j k hj hk
    obtain ⟨f1, f2, f3⟩ := flatIdx_coords (wsCount df) (tiCount df) i j k hj hk
    rw [e1, e2, e3, f1, f2, f3]
    exact limitedArr_wd_bound _ _ _ (mul_nonneg hcw (wdStepOf_pos df hW).le)
      _ _ _ _ i j k t hi
  · intro hi hj hk
    have hr1 : flatIdx (wsCount df) (tiCount df) i (j + 1) k < df.length := by
      rw [hlen]; exact flatIdx_lt _ _ _ _ _ _ hi hj hk
    have hr0 : flatIdx (wsCount df) (tiCount df) i j k < df.length := by
      rw [hlen]; exact flatIdx_lt _ _ _ _ _ _ hi (by omega) hk
    rw [tableOffset_rateLimitedTable df _ _ _ _ _ _ _ _ _ hr1 htN,
        tableOffset_rateLimitedTable df _ _ _ _ _ _ _ _ _ hr0 htN]
    obtain ⟨e1, e2, e3⟩ := flatIdx_coords (wsCount df) (tiCount df) i (j + 1) k hj hk
    obtain ⟨f1, f2, f3⟩ := flatIdx_coords (wsCount df) (tiCount df) i j k (by omega) hk
    rw [e1, e2, e3, f1, f2, f3]
    exact limitedArr_ws_bound _ _ _ (mul_nonneg hcs (wsStepOf_pos df hS).le)
      _ _ _ _ i j k t hj
  · intro hi hj hk
    have hr1 : flatIdx (wsCount df) (tiCount df) i j (k + 1) < df.length := by
      rw [hlen]; exact flatIdx_lt _ _ _ _ _ _ hi hj hk
    have hr0 : flatIdx (wsCount df) (tiCount df) i j k < df.length := by
      rw [hlen]; exact flatIdx_lt _ _ _ _ _ _ hi hj (by omega)
    rw [tableOffset_rateLimitedTable df _ _ _ _ _ _ _ _ _ hr1 htN,
        tableOffset_rateLimitedTable df _ _ _ _ _ _ _ _ _ hr0 htN]
    obtain ⟨e1, e2, e3⟩ := flatIdx_coords (wsCount df) (tiCount df) i j (k + 1) hj hk
    obtain ⟨f1, f2, f3⟩ := flatIdx_coords (wsCount df) (tiCount df) i j k hj (by omega)
    rw [e1, e2, e3, f1, f2, f3]
    exact limitedArr_ti_bound _ _ _ (mul_nonneg hct (tiStepOf_pos df).le)
      _ _ _ _ i j k t hk

/-- C2 (amended: nonnegative rate limits): for every table accepted by
`apply_static_rate_limits` and every choice of nonnegative per-axis rate
limits, the returned table satisfies, simultaneously along all three axes and
for every turbine, that adjacent grid samples of the offsets differ by at most
the rate limit times the axis step computed by the source
(`wd_array[1] - wd_array[0]`, etc.). -/
theorem applyStaticRateLimits_bounds (df df' : DfOpt) (cw cs ct : ℚ)
    (hcw : 0 ≤ cw) (hcs : 0 ≤ cs) (hct : 0 ≤ ct)
    (hok : applyStaticRateLimits df cw cs ct = .ok df') (i j k t : ℕ)
    (htN : t < turbCount df) :
    (i + 1 < wdCount df → j < wsCount df → k < tiCount df →
      |tableOffset df' (flatIdx (wsCount df) (tiCount df) (i + 1) j k) t
        - tableOffset df' (flatIdx (wsCount df) (tiCount df) i j k) t|
        ≤ cw * wdStepOf df)
    ∧ (i < wdCount df → j + 1 < wsCount df → k < tiCount df →
      |tableOffset df' (flatIdx (wsCount df) (tiCount df) i (j + 1) k) t
        - tableOffset df' (flatIdx (wsCount df) (tiCount df) i j k) t|
        ≤ cs * wsStepOf df)
    ∧ (i < wdCount df → j < wsCount df → k + 1 < tiCount df →
      |tableOffset df' (flatIdx (wsCount df) (tiCount df) i j (k + 1)) t
        - tableOffset df' (flatIdx (wsCount df) (tiCount df) i j k) t|
        ≤ ct * tiStepOf df) :=
  rateLimits_bounds_aux df df' cw cs ct hcw hcs hct hok i j k t htN

/-- The table produced by a successful `apply_static_rate_limits` call
(defaulting to the empty table on error), used to state concrete instances. -/
def rlOut (df : DfOpt) (cw cs ct : ℚ) : DfOpt :=
  ((applyStaticRateLimits df cw cs ct).toOption).getD []

/-- A valid 2 wd x 2 ws x 1 ti one-turbine table with all offsets zero. -/
def tblZero : DfOpt :=
  [⟨0, 8, 3/50, [0]⟩, ⟨0, 9, 3/50, [0]⟩, ⟨5, 8, 3/50, [0]⟩, ⟨5, 9, 3/50, [0]⟩]

/-- C2 counterexample: with the (negative) wind-direction rate limit `-1`, the
claimed bound `|delta| <= rate * step` fails on the output table, already on an
all-zero table, since the bound is negative while deltas are zero. -/
theorem rate_limit_bound_fails_for_negative_limit :
    applyStaticRateLimits tblZero (-1) 10 1 = .ok (rlOut tblZero (-1) 10 1)
    ∧ ¬ |tableOffset (rlOut tblZero (-1) 10 1)
          (flatIdx (wsCount tblZero) (tiCount tblZero) 1 0 0) 0
        - tableOffset (rlOut tblZero (-1) 10 1)
          (flatIdx (wsCount tblZero) (tiCount tblZero) 0 0 0) 0|
        ≤ (-1) * wdStepOf tblZero := by
  with_unfolding_all decide

/-- A valid 2 wd x 2 ws x 1 ti one-turbine table with a sharp offset drop
along the wind-direction axis. -/
def tblRL : DfOpt :=
  [⟨0, 8, 3/50, [20]⟩, ⟨0, 9, 3/50, [20]⟩, ⟨5, 8, 3/50, [0]⟩, ⟨5, 9, 3/50, [0]⟩]

/-- Witness for `applyStaticRateLimits_bounds` at a concrete table and
nonnegative limits. -/
theorem applyStaticRateLimits_bounds_witness :
    applyStaticRateLimits tblRL 1 10 1 = .ok (rlOut tblRL 1 10 1)
    ∧ |tableOffset (rlOut tblRL 1 10 1) (flatIdx (wsCount tblRL) (tiCount tblRL) 1 0 0) 0
        - tableOffset (rlOut tblRL 1 10 1) (flatIdx (wsCount tblRL) (tiCount tblRL) 0 0 0) 0|
        ≤ 1 * wdStepOf tblRL := by
  have hok : applyStaticRateLimits tblRL 1 10 1 = .ok (rlOut tblRL 1 10 1) := by
    with_unfolding_all decide
  refine ⟨hok, ?_⟩
  exact (applyStaticRateLimits_bounds tblRL (rlOut tblRL 1 10 1) 1 10 1
    (by norm_num) (by norm_num) (by norm_num) hok 0 0 0 0 (by with_unfolding_all decide)).1
    (by with_unfolding_all decide) (by with_unfolding_all decide) (by with_unfolding_all decide)

/-! ## Claim C5: degenerate axes of apply_static_rate_limits -/

/-- C5: on any nonempty table (with consistent offset widths) that has exactly
one distinct wind speed or exactly one distinct wind direction,
`apply_static_rate_limits` raises `IndexError` (from `wd_array[1]` or
`ws_array[1]`), whatever the rate limits, and regardless of whether the table
is correctly ordered: the step computation precedes `check_df_opt_ordering`.
In particular rate limiting any single-wind-speed table (the shape required by
`apply_wind_speed_ramps`) fails. -/
theorem applyStaticRateLimits_single_axis_indexError (df : DfOpt) (cw cs ct : ℚ)
    (hne : df ≠ [])
    (hcons : (df.all fun r => r.offsets.length = turbCount df) = true)
    (hdeg : wsCount df = 1 ∨ wdCount df = 1) :
    applyStaticRateLimits df cw cs ct = .error .indexError := by
  simp only [applyStaticRateLimits]
  have h1 : df.isEmpty = false := by
    cases df with
    | nil => exact absurd rfl hne
    | cons a l => rfl
  rw [h1]
  rw [if_neg (by simp)]
  rw [if_neg (not_not_intro hcons)]
  rw [if_neg ?hcond]
  case hcond =>
    intro hboth
    rcases hdeg with hd | hd
    · have : wsCount df = (uniqueSorted (df.map OptRow.ws)).length := rfl
      omega
    · have : wdCount df = (uniqueSorted (df.map OptRow.wd)).length := rfl
      omega

/-- A valid two-direction, single-wind-speed table. -/
def tblC5 : DfOpt := [⟨0, 8, 3/50, [1]⟩, ⟨5, 8, 3/50, [2]⟩]

/-- Witness for `applyStaticRateLimits_single_axis_indexError` at a concrete
single-wind-speed table. -/
theorem applyStaticRateLimits_single_axis_indexError_witness :
    applyStaticRateLimits tblC5 5 10 1 = .error .indexError := by
  exact applyStaticRateLimits_single_axis_indexError tblC5 5 10 1 (by simp [tblC5])
    (by with_unfolding_all decide) (Or.inl (by with_unfolding_all decide))

/-! ### Column preservation and reconstruction lemmas -/

theorem map_proj_range_getD {β : Type} (l : DfOpt) (g : OptRow → β) :
    (List.range l.length).map (fun r => g (l.getD r default)) = l.map g := by
  apply List.ext_getElem
  · simp
  · intro n h1 h2
    simp only [List.getElem_map, List.getElem_range]
    rw [List.getD_eq_getElem?_getD, List.getElem?_eq_getElem (by simpa using h2)]
    rfl

theorem getD_eq_zero_of_le {l : List ℚ} {t : ℕ} (h : l.length ≤ t) : l.getD t 0 = 0 := by
  rw [List.getD_eq_getElem?_getD, List.getElem?_eq_none (by simpa using h)]
  rfl

theorem map_getD_range_self (l : List ℚ) (N : ℕ) (h : l.length = N) :
    (List.range N).map (fun t => l.getD t 0) = l := by
  apply List.ext_getElem
  · simp [h]
  · intro n h1 h2
    simp only [List.getElem_map, List.getElem_range]
    rw [List.getD_eq_getElem?_getD, List.getElem?_eq_getElem h2]
    rfl

theorem rateLimitedTable_length (df : DfOpt) (W S T N : ℕ) (cw cs ct : ℚ) :
    (rateLimitedTable df W S T N cw cs ct).length = df.length := by
  simp [rateLimitedTable]

theorem rateLimitedTable_map_wd (df : DfOpt) (W S T N : ℕ) (cw cs ct : ℚ) :
    (rateLimitedTable df W S T N cw cs ct).map OptRow.wd = df.map OptRow.wd := by
  unfold rateLimitedTable
  rw [List.map_map]
  exact map_proj_range_getD df OptRow.wd

theorem rateLimitedTable_map_ws (df : DfOpt) (W S T N : ℕ) (cw cs ct : ℚ) :
    (rateLimitedTable df W S T N cw cs ct).map OptRow.ws = df.map OptRow.ws := by
  unfold rateLimitedTable
  rw [List.map_map]
  exact map_proj_range_getD df OptRow.ws

theorem rateLimitedTable_map_ti (df : DfOpt) (W S T N : ℕ) (cw cs ct : ℚ) :
    (rateLimitedTable df W S T N cw cs ct).map OptRow.ti = df.map OptRow.ti := by
  unfold rateLimitedTable
  rw [List.map_map]
  exact map_proj_range_getD df OptRow.ti

theorem turbCount_rateLimitedTable (df : DfOpt) (W S T N : ℕ) (cw cs ct : ℚ)
    (h : df ≠ []) : turbCount (rateLimitedTable df W S T N cw cs ct) = N := by
  unfold turbCount rateLimitedTable
  cases df with
  | nil => cases h rfl
  | cons a l =>
      simp [List.range_succ_eq_map]

theorem rateLimitedTable_all_len (df : DfOpt) (W S T N : ℕ) (cw cs ct : ℚ) :
    ((rateLimitedTable df W S T N cw cs ct).all fun r => r.offsets.length = N) = true := by
  rw [List.all_eq_true]
  intro x hx
  unfold rateLimitedTable at hx
  obtain ⟨r, hr, hxe⟩ := List.mem_map.mp hx
  subst hxe
  simp

theorem checkDfOptOrdering_congr_cols (d1 d2 : DfOpt) (h1 : d1.length = d2.length)
    (h2 : d1.map OptRow.wd = d2.map OptRow.wd) (h3 : d1.map OptRow.ws = d2.map OptRow.ws)
    (h4 : d1.map OptRow.ti = d2.map OptRow.ti) :
    checkDfOptOrdering d1 = checkDfOptOrdering d2 := by
  unfold checkDfOptOrdering
  rw [h1, h2, h3, h4]

theorem coords_recompose (S T r : ℕ) :
    flatIdx S T (r / (S * T)) (r / T % S) (r % T) = r := by
  unfold flatIdx
  have h1 := Nat.div_add_mod (r / T) S
  have h2 := Nat.div_add_mod r T
  have hdd : r / (S * T) = r / T / S := by
    rw [Nat.div_div_eq_div_mul, Nat.mul_comm T S]
  rw [hdd]
  calc (r / T / S * S + r / T % S) * T + r % T
      = (r / T) * T + r % T := by
        rw [Nat.mul_comm (r / T / S) S, h1]
    _ = r := by rw [Nat.mul_comm (r / T) T, h2]

theorem coords_bounds (W S T r : ℕ) (hS : 0 < S) (hT : 0 < T) (hr : r < W * (S * T)) :
    r / (S * T) < W ∧ r / T % S < S ∧ r % T < T := by
  refine ⟨?_, Nat.mod_lt _ hS, Nat.mod_lt _ hT⟩
  rw [Nat.div_lt_iff_lt_mul (Nat.mul_pos hS hT)]
  exact hr

/-- A table whose offsets already satisfy all three axis bounds is a fixed
point of the rate-limited-table reconstruction. -/
theorem rateLimitedTable_of_bounded (D : DfOpt) (W S T N : ℕ) (cw cs ct : ℚ)
    (hcw : 0 ≤ cw) (hcs : 0 ≤ cs) (hct : 0 ≤ ct)
    (hS : 0 < S) (hT : 0 < T)
    (hDlen : D.length = W * (S * T))
    (hall : ∀ r, r < D.length → ((D.getD r default).offsets).length = N)
    (hbw : ∀ i j k t, i + 1 < W → j < S → k < T → t < N →
      |tableArr D S T (i + 1) j k t - tableArr D S T i j k t| ≤ cw)
    (hbs : ∀ i j k t, i < W → j + 1 < S → k < T → t < N →
      |tableArr D S T i (j + 1) k t - tableArr D S T i j k t| ≤ cs)
    (hbt : ∀ i j k t, i < W → j < S → k + 1 < T → t < N →
      |tableArr D S T i j (k + 1) t - tableArr D S T i j k t| ≤ ct) :
    rateLimitedTable D W S T N cw cs ct = D := by
  have hzero : ∀ i j k t, i < W → j < S → k < T → N ≤ t → tableArr D S T i j k t = 0 := by
    intro i j k t hi hj hk htt
    unfold tableArr
    have hflat : (i * S + j) * T + k < D.length := by
      rw [hDlen]; exact flatIdx_lt W S T i j k hi hj hk
    apply getD_eq_zero_of_le
    rw [hall _ hflat]
    exact htt
  have hw' : ∀ i j k t, i + 1 < W → j < S → k < T →
      |tableArr D S T (i + 1) j k t - tableArr D S T i j k t| ≤ cw := by
    intro i j k t hi hj hk
    by_cases htt : t < N
    · exact hbw i j k t hi hj hk htt
    · rw [hzero _ _ _ _ hi hj hk (le_of_not_lt htt),
          hzero _ _ _ _ (by omega) hj hk (le_of_not_lt htt)]
      simpa using hcw
  have hs' : ∀ i j k t, i < W → j + 1 < S → k < T →
      |tableArr D S T i (j + 1) k t - tableArr D S T i j k t| ≤ cs := by
    intro i j k t hi hj hk
    by_cases htt : t < N
    · exact hbs i j k t hi hj hk htt
    · rw [hzero _ _ _ _ hi hj hk (le_of_not_lt htt),
          hzero _ _ _ _ hi (by omega) hk (le_of_not_lt htt)]
      simpa using hcs
  have ht' : ∀ i j k t, i < W → j < S → k + 1 < T →
      |tableArr D S T i j (k + 1) t - tableArr D S T i j k t| ≤ ct := by
    intro i j k t hi hj hk
    by_cases htt : t < N
    · exact hbt i j k t hi hj hk htt
    · rw [hzero _ _ _ _ hi hj hk (le_of_not_lt htt),
          hzero _ _ _ _ hi hj (by omega) (le_of_not_lt htt)]
      simpa using hct
  apply List.ext_getElem
  · rw [rateLimitedTable_length]
  · intro r h1 h2
    have hrD : r < D.length := h2
    unfold rateLimitedTable
    simp only [List.getElem_map, List.getElem_range]
    have hcoords := coords_bounds W S T r hS hT (by rw [← hDlen]; exact hrD)
    have hoff : ∀ t,
        limitedArr cw cs ct W S T (tableArr D S T) (r / (S * T)) (r / T % S) (r % T) t
          = ((D.getD r default).offsets).getD t 0 := by
      intro t
      rw [limitedArr_eq_self cw cs ct W S T (tableArr D S T) hw' hs' ht'
        _ _ _ _ hcoords.1 hcoords.2.1 hcoords.2.2]
      show ((D.getD (flatIdx S T (r / (S * T)) (r / T % S) (r % T)) default).offsets).getD t 0
        = ((D.getD r default).offsets).getD t 0
      rw [coords_recompose]
    have hmap : (List.range N).map
        (fun t => limitedArr cw cs ct W S T (tableArr D S T)
          (r / (S * T)) (r / T % S) (r % T) t)
        = (D.getD r default).offsets := by
      rw [List.map_congr_left (fun t _ => hoff t)]
      exact map_getD_range_self _ N (hall r hrD)
    rw [hmap]
    have hD : D.getD r default = D[r] := by
      rw [List.getD_eq_getElem?_getD, List.getElem?_eq_getElem hrD]
      rfl
    rw [hD]

/-! ## Claim C9: idempotence of rate limiting -/

/-- C9 (amended: nonnegative rate limits): for every table accepted by
`apply_static_rate_limits` and nonnegative per-axis rate limits, re-applying
`apply_static_rate_limits` with the same limits to its own output returns that
output again, exactly (the embedding computes in exact rational arithmetic, so
no floating tolerance is needed). -/
theorem applyStaticRateLimits_idempotent (df df' : DfOpt) (cw cs ct : ℚ)
    (hcw : 0 ≤ cw) (hcs : 0 ≤ cs) (hct : 0 ≤ ct)
    (hok : applyStaticRateLimits df cw cs ct = .ok df') :
    applyStaticRateLimits df' cw cs ct = .ok df' := by
  obtain ⟨hlen, hW, hS, hall, hchk, hdf'⟩ := applyStaticRateLimits_ok df df' cw cs ct hok
  have hne : df ≠ [] := by
    intro h
    rw [h] at hW
    simp [wdCount, uniqueSorted] at hW
  have hT1 : 1 ≤ tiCount df := by
    have hcol : uniqueSorted (df.map OptRow.ti) ≠ [] := by
      intro h
      exact hne (List.map_eq_nil_iff.mp ((uniqueSorted_eq_nil_iff _).mp h))
    unfold tiCount
    exact List.length_pos.mpr hcol
  have hpos : 0 < df.length := by
    rw [hlen]
    exact Nat.mul_pos (by omega) (Nat.mul_pos (by omega) (by omega))
  -- column preservation
  have hlen2 : df'.length = df.length := by rw [hdf']; exact rateLimitedTable_length _ _ _ _ _ _ _ _
  have hmwd2 : df'.map OptRow.wd = df.map OptRow.wd := by
    rw [hdf']; exact rateLimitedTable_map_wd _ _ _ _ _ _ _ _
  have hmws2 : df'.map OptRow.ws = df.map OptRow.ws := by
    rw [hdf']; exact rateLimitedTable_map_ws _ _ _ _ _ _ _ _
  have hmti2 : df'.map OptRow.ti = df.map OptRow.ti := by
    rw [hdf']; exact rateLimitedTable_map_ti _ _ _ _ _ _ _ _
  have htb : turbCount df' = turbCount df := by
    rw [hdf']; exact turbCount_rateLimitedTable _ _ _ _ _ _ _ _ hne
  have hne' : df' ≠ [] := by
    intro h
    rw [h] at hlen2
    simp at hlen2
    omega
  have hchk' : checkDfOptOrdering df' = .ok () := by
    rw [checkDfOptOrdering_congr_cols df' df hlen2 hmwd2 hmws2 hmti2]
    exact hchk
  have halllen' : ∀ r, r < df'.length → ((df'.getD r default).offsets).length = turbCount df := by
    intro r hr
    have hmem : df'.getD r default ∈ df' := by
      rw [List.getD_eq_getElem?_getD, List.getElem?_eq_getElem hr]
      exact List.getElem_mem hr
    have hAll : (df'.all fun x => x.offsets.length = turbCount df) = true := by
      rw [hdf']
      exact rateLimitedTable_all_len _ _ _ _ _ _ _ _
    rw [List.all_eq_true] at hAll
    simpa using hAll _ hmem
  -- evaluate the second application
  simp only [applyStaticRateLimits]
  rw [if_neg ?hc1]
  case hc1 =>
    intro h
    exact hne' (List.isEmpty_iff.mp h)
  rw [htb]
  rw [if_neg (not_not_intro ?hc2)]
  case hc2 =>
    rw [List.all_eq_true]
    intro x hx
    obtain ⟨r, hmem2⟩ := List.mem_iff_getElem.mp hx
    obtain ⟨hr, hx2⟩ := hmem2
    have := halllen' r hr
    rw [List.getD_eq_getElem?_getD, List.getElem?_eq_getElem hr] at this
    simp only [Option.getD_some] at this
    rw [← hx2] at *
    simpa using this
  rw [hmwd2, hmws2, hmti2]
  rw [if_pos ⟨hW, hS⟩]
  rw [hchk']
  refine congrArg Except.ok ?_
  show rateLimitedTable df' (wdCount df) (wsCount df) (tiCount df) (turbCount df)
    (cw * wdStepOf df) (cs * wsStepOf df) (ct * tiStepOf df) = df'
  refine rateLimitedTable_of_bounded df' (wdCount df) (wsCount df) (tiCount df) (turbCount df)
    _ _ _ (mul_nonneg hcw (wdStepOf_pos df hW).le) (mul_nonneg hcs (wsStepOf_pos df hS).le)
    (mul_nonneg hct (tiStepOf_pos df).le) (by omega) (by omega)
    (hlen2.trans hlen) halllen' ?_ ?_ ?_
  · intro i j k t hi hj hk htN
    exact (rateLimits_bounds_aux df df' cw cs ct hcw hcs hct hok i j k t htN).1 hi hj hk
  · intro i j k t hi hj hk htN
    exact (rateLimits_bounds_aux df df' cw cs ct hcw hcs hct hok i j k t htN).2.1 hi hj hk
  · intro i j k t hi hj hk htN
    exact (rateLimits_bounds_aux df df' cw cs ct hcw hcs hct hok i j k t htN).2.2 hi hj hk

/-- A valid 2 wd x 2 ws x 1 ti one-turbine table with constant offset 5. -/
def tblConst : DfOpt :=
  [⟨0, 8, 3/50, [5]⟩, ⟨0, 9, 3/50, [5]⟩, ⟨5, 8, 3/50, [5]⟩, ⟨5, 9, 3/50, [5]⟩]

/-- C9 counterexample: with the (negative) wind-direction rate limit `-1`,
re-applying `apply_static_rate_limits` to its own output changes the table
again (on a constant table the first pass gives `5/2` everywhere, the second
`0`), so idempotence fails for that choice of rate limits. -/
theorem rate_limit_not_idempotent_for_negative_limit :
    applyStaticRateLimits tblConst (-1) 10 1 = .ok (rlOut tblConst (-1) 10 1)
    ∧ applyStaticRateLimits (rlOut tblConst (-1) 10 1) (-1) 10 1
        ≠ .ok (rlOut tblConst (-1) 10 1) := by
  with_unfolding_all decide

/-- Witness for `applyStaticRateLimits_idempotent` at a concrete table and
nonnegative limits. -/
theorem applyStaticRateLimits_idempotent_witness :
    applyStaticRateLimits tblRL 1 10 1 = .ok (rlOut tblRL 1 10 1)
    ∧ applyStaticRateLimits (rlOut tblRL 1 10 1) 1 10 1 = .ok (rlOut tblRL 1 10 1) := by
  have hok : applyStaticRateLimits tblRL 1 10 1 = .ok (rlOut tblRL 1 10 1) := by
    with_unfolding_all decide
  exact ⟨hok, applyStaticRateLimits_idempotent tblRL (rlOut tblRL 1 10 1) 1 10 1
    (by norm_num) (by norm_num) (by norm_num) hok⟩

/-! ## apply_wind_speed_ramps -/

/-- `np.arange(start, stop, step)`: `ceil((stop - start) / step)` points
`start + i * step` (the stop value itself is excluded). -/
def arangeQ (start stop step : ℚ) : List ℚ :=
  (List.range (⌈(stop - start) / step⌉.toNat)).map (fun i => start + i * step)

/-- `scipy.interpolate.interp1d` (linear) evaluated at `x` over the nodes
`xs` (nondecreasing, as constructed by the caller) with node values
`f 0, f 1, ...`: out-of-range queries resolve to `fill`
(`bounds_error=False`), in-range queries use `np.searchsorted(xs, x)` (side
left, the count of nodes below `x`) clipped to `[1, len - 1]` as the upper
node, with `y = y_lo + (x - x_lo) * slope`.  The rational division is total
(`q / 0 = 0`), whereas the float slope on a degenerate interval
(`x_hi = x_lo`, possible at duplicated nodes) is NaN or ±inf and the float
result is NaN; such queries are flagged by `interp1dNanAt`, and the theorems
below prove the flag false on their domain, so there this function is the
program's (finite) value. -/
def interp1dAt (xs : List ℚ) (f : ℕ → ℚ) (fill : ℚ) (x : ℚ) : ℚ :=
  if x < xs.headD 0 ∨ x > xs.getLastD 0 then fill
  else
    let idx := min (max (xs.countP (fun v => decide (v < x))) 1) (xs.length - 1)
    let lo := idx - 1
    f lo + (x - xs.getD lo 0) * ((f idx - f lo) / (xs.getD idx 0 - xs.getD lo 0))

/-- The queries at which float `interp1d` returns NaN: the selected interval
is degenerate (`x_hi = x_lo`), so `_call_linear` computes the slope
`(y_hi - y_lo) / (x_hi - x_lo)` as NaN (`0/0`) or ±inf, and
`y_lo + (x - x_lo) * slope` is NaN either way (for nondecreasing nodes a
degenerate selection forces `x = x_lo`, and `±inf * 0` is NaN).  Out-of-range
queries take the finite fill value instead. -/
def interp1dNanAt (xs : List ℚ) (x : ℚ) : Bool :=
  if x < xs.headD 0 ∨ x > xs.getLastD 0 then false
  else
    let idx := min (max (xs.countP (fun v => decide (v < x))) 1) (xs.length - 1)
    decide (xs.getD idx 0 = xs.getD (idx - 1) 0)

/-- The node values packed by `apply_wind_speed_ramps` for source row `r` and
turbine `t`: zero at `ws_min`, cut-in, cut-out and `ws_max` (nodes 0, 1, 4,
5), and the source offsets at both fully-engaged nodes (2 and 3). -/
def rampNodeVal (df : DfOpt) (r t idx : ℕ) : ℚ :=
  if idx = 2 ∨ idx = 3 then ((df.getD r default).offsets).getD t 0 else 0

/-- `apply_wind_speed_ramps(df_opt, ws_resolution, ws_min, ws_max,
ws_wake_steering_cut_in, ..._fully_engaged_low, ..._fully_engaged_high,
..._cut_out)`.  Failure order follows the source: `check_df_opt_ordering`,
breakpoint ordering, single wind speed, wind speed within the fully-engaged
limits, then `np.vstack` (empty or ragged offsets).  The output row at flat
index `q` pairs wind speed `wind_speed_all[q / len(df)]` (`np.repeat`) with
source row `q % len(df)` (`np.tile`). -/
def applyWindSpeedRamps (df : DfOpt) (wsRes wsMin wsMax cutIn feLo feHi cutOut : ℚ) :
    Except DesignError DfOpt :=
  match checkDfOptOrdering df with
  | .error e => .error e
  | .ok () =>
    if cutIn ≤ feLo ∧ feLo ≤ feHi ∧ feHi ≤ cutOut then
      if 1 < wsCount df then .error .multipleWindSpeeds
      else
        if (uniqueSorted (df.map OptRow.ws)).headD 0 < feLo
            ∨ (uniqueSorted (df.map OptRow.ws)).headD 0 > feHi then
          .error .windSpeedOutsideEngaged
        else if df.isEmpty then .error .emptyTable
        else if ¬ (df.all fun r => r.offsets.length = turbCount df) then .error .raggedOffsets
        else
          .ok ((List.range ((arangeQ wsMin wsMax wsRes).length * df.length)).map (fun q =>
            { wd := (df.getD (q % df.length) default).wd
              ws := (arangeQ wsMin wsMax wsRes).getD (q / df.length) 0
              ti := (df.getD (q % df.length) default).ti
              offsets := (List.range (turbCount df)).map (fun t =>
                interp1dAt [wsMin, cutIn, feLo, feHi, cutOut, wsMax]
                  (rampNodeVal df (q % df.length) t) 0
                  ((arangeQ wsMin wsMax wsRes).getD (q / df.length) 0)) }))
    else .error .rampOrderInvalid

/-- The table produced by a successful `apply_wind_speed_ramps` call
(defaulting to the empty table on error), for concrete instances. -/
def rampOut (df : DfOpt) (wsRes wsMin wsMax cutIn feLo feHi cutOut : ℚ) : DfOpt :=
  ((applyWindSpeedRamps df wsRes wsMin wsMax cutIn feLo feHi cutOut).toOption).getD []

/-! ## Claim C1: ordering of the ramp output -/

/-- A valid two-direction, single-speed, single-turbine table. -/
def tblC1 : DfOpt := [⟨0, 8, 3/50, [0]⟩, ⟨5, 8, 3/50, [0]⟩]

/-- C1 (code bug): with the default ramp parameters, `apply_wind_speed_ramps`
succeeds on a valid two-direction single-speed table, but its output interleaves
wind directions under each wind speed (wind speed varies slowest), so
`check_df_opt_ordering` rejects the output table that the downstream stages
(`get_yaw_angles_interpolant` in particular) require to pass. -/
theorem applyWindSpeedRamps_output_fails_ordering :
    applyWindSpeedRamps tblC1 1 0 30 3 5 10 13 = .ok (rampOut tblC1 1 0 30 3 5 10 13)
    ∧ checkDfOptOrdering (rampOut tblC1 1 0 30 3 5 10 13) = .error .wrongOrdering := by
  with_unfolding_all decide

theorem rampInterp_low (a b c d e f x : ℚ) (g : ℕ → ℚ)
    (hab : a ≤ b) (hbc : b ≤ c) (hcd : c ≤ d) (hde : d ≤ e) (hef : e ≤ f)
    (hg0 : g 0 = 0) (hg1 : g 1 = 0) (hx : x ≤ b) :
    interp1dAt [a, b, c, d, e, f] g 0 x = 0 := by
  have hnb : ¬ (b < x) := not_lt.mpr hx
  have hnc : ¬ (c < x) := not_lt.mpr (hx.trans hbc)
  have hnd : ¬ (d < x) := not_lt.mpr ((hx.trans hbc).trans hcd)
  have hne : ¬ (e < x) := not_lt.mpr (((hx.trans hbc).trans hcd).trans hde)
  have hnf : ¬ (f < x) := not_lt.mpr ((((hx.trans hbc).trans hcd).trans hde).trans hef)
  unfold interp1dAt
  by_cases hxa : x < a
  · rw [if_pos (Or.inl (by simpa using hxa))]
  · rw [if_neg ?hin]
    case hin =>
      push_neg
      refine ⟨by simpa using not_lt.mp hxa, ?_⟩
      show x ≤ [a, b, c, d, e, f].getLastD 0
      have hlast : ([a, b, c, d, e, f] : List ℚ).getLastD 0 = f := by simp
      rw [hlast]
      exact not_lt.mp hnf
    have hcount : ([a, b, c, d, e, f] : List ℚ).countP (fun v => decide (v < x))
        = if a < x then 1 else 0 := by
      by_cases hax : a < x
      · simp [List.countP_cons, hax, hnb, hnc, hnd, hne, hnf]
      · simp [List.countP_cons, hax, hnb, hnc, hnd, hne, hnf]
    simp only [hcount]
    by_cases hax : a < x
    · rw [if_pos hax]
      norm_num
      rw [hg0, hg1]
      simp
    · rw [if_neg hax]
      norm_num
      rw [hg0, hg1]
      simp

theorem rampInterp_mid (a b c d e f x : ℚ) (g : ℕ → ℚ)
    (hab : a ≤ b) (hbc : b ≤ c) (hcd : c ≤ d) (hde : d ≤ e) (hef : e ≤ f)
    (hg23 : g 3 = g 2) (hxc : c < x) (hxd : x < d) :
    interp1dAt [a, b, c, d, e, f] g 0 x = g 2 := by
  have ha : a < x := lt_of_le_of_lt (hab.trans hbc) hxc
  have hb : b < x := lt_of_le_of_lt hbc hxc
  have hnd : ¬ (d < x) := not_lt.mpr hxd.le
  have hne : ¬ (e < x) := not_lt.mpr (hxd.le.trans hde)
  have hnf : ¬ (f < x) := not_lt.mpr ((hxd.le.trans hde).trans hef)
  unfold interp1dAt
  rw [if_neg ?hin]
  case hin =>
    push_neg
    constructor
    · simpa using ha.le
    · show x ≤ [a, b, c, d, e, f].getLastD 0
      have hlast : ([a, b, c, d, e, f] : List ℚ).getLastD 0 = f := by simp
      rw [hlast]
      exact not_lt.mp hnf
  have hcount : ([a, b, c, d, e, f] : List ℚ).countP (fun v => decide (v < x)) = 3 := by
    simp [List.countP_cons, ha, hb, hxc, hnd, hne, hnf]
  simp only [hcount]
  norm_num
  rw [hg23]
  simp

theorem rampInterp_high (a b c d e f x : ℚ) (g : ℕ → ℚ)
    (hab : a ≤ b) (hbc : b ≤ c) (hcd : c ≤ d) (hde : d < e) (hef : e ≤ f)
    (hg4 : g 4 = 0) (hg5 : g 5 = 0) (hx : e ≤ x) :
    interp1dAt [a, b, c, d, e, f] g 0 x = 0 := by
  have ha : a < x := lt_of_le_of_lt ((hab.trans hbc).trans hcd) (lt_of_lt_of_le hde hx)
  have hb : b < x := lt_of_le_of_lt (hbc.trans hcd) (lt_of_lt_of_le hde hx)
  have hc : c < x := lt_of_le_of_lt hcd (lt_of_lt_of_le hde hx)
  have hd : d < x := lt_of_lt_of_le hde hx
  unfold interp1dAt
  by_cases hxf : x > f
  · rw [if_pos (Or.inr (by simpa using hxf))]
  · rw [if_neg ?hin]
    case hin =>
      push_neg
      constructor
      · simpa using ha.le
      · show x ≤ [a, b, c, d, e, f].getLastD 0
        have hlast : ([a, b, c, d, e, f] : List ℚ).getLastD 0 = f := by simp
        rw [hlast]
        exact not_lt.mp hxf
    by_cases hex : e < x
    · have hcount : ([a, b, c, d, e, f] : List ℚ).countP (fun v => decide (v < x)) = 5 := by
        have hnf : ¬ (f < x) := hxf
        simp [List.countP_cons, ha, hb, hc, hd, hex, hnf]
      simp only [hcount]
      norm_num
      rw [hg4, hg5]
      simp
    · have hxe : x = e := le_antisymm (not_lt.mp hex) hx
      have hcount : ([a, b, c, d, e, f] : List ℚ).countP (fun v => decide (v < x)) = 4 := by
        have hnf : ¬ (f < x) := hxf
        simp [List.countP_cons, ha, hb, hc, hd, hex, hnf]
      simp only [hcount]
      norm_num
      rw [hg4, hxe]
      have hed : e - d ≠ 0 := by linarith
      field_simp
      ring

theorem rampInterp_nondegenerate (a b c d e f x : ℚ)
    (hab : a < b) (hbc : b ≤ c) (hcd : c ≤ d) (hde : d < e) (hef : e ≤ f) :
    interp1dNanAt [a, b, c, d, e, f] x = false := by
  unfold interp1dNanAt
  by_cases hout : x < ([a, b, c, d, e, f] : List ℚ).headD 0
      ∨ x > ([a, b, c, d, e, f] : List ℚ).getLastD 0
  · rw [if_pos hout]
  · rw [if_neg hout]
    push_neg at hout
    have hxf : x ≤ f := by
      have h2 := hout.2
      have hlast : ([a, b, c, d, e, f] : List ℚ).getLastD 0 = f := by simp
      rw [hlast] at h2
      exact h2
    have hnf : ¬ (f < x) := not_lt.mpr hxf
    by_cases he : e < x
    · have hd : d < x := lt_trans hde he
      have hc : c < x := lt_of_le_of_lt hcd hd
      have hb : b < x := lt_of_le_of_lt hbc hc
      have ha : a < x := lt_trans hab hb
      have hcount : ([a, b, c, d, e, f] : List ℚ).countP (fun v => decide (v < x)) = 5 := by
        simp [List.countP_cons, ha, hb, hc, hd, he, hnf]
      simp only [hcount]
      exact decide_eq_false (by
        show ¬ f = e
        intro hfe
        exact absurd (lt_of_lt_of_le he hxf) (by rw [hfe]; exact lt_irrefl e))
    · by_cases hd : d < x
      · have hc : c < x := lt_of_le_of_lt hcd hd
        have hb : b < x := lt_of_le_of_lt hbc hc
        have ha : a < x := lt_trans hab hb
        have hcount : ([a, b, c, d, e, f] : List ℚ).countP (fun v => decide (v < x)) = 4 := by
          simp [List.countP_cons, ha, hb, hc, hd, he, hnf]
        simp only [hcount]
        exact decide_eq_false (by
          show ¬ e = d
          intro hed
          exact absurd hde (by rw [hed]; exact lt_irrefl d))
      · by_cases hc : c < x
        · have hb : b < x := lt_of_le_of_lt hbc hc
          have ha : a < x := lt_trans hab hb
          have hcount : ([a, b, c, d, e, f] : List ℚ).countP (fun v => decide (v < x)) = 3 := by
            simp [List.countP_cons, ha, hb, hc, hd, he, hnf]
          simp only [hcount]
          exact decide_eq_false (by
            show ¬ d = c
            intro hdc
            exact absurd (lt_of_lt_of_le hc (not_lt.mp hd)) (by rw [hdc]; exact lt_irrefl c))
        · by_cases hb : b < x
          · have ha : a < x := lt_trans hab hb
            have hcount : ([a, b, c, d, e, f] : List ℚ).countP (fun v => decide (v < x)) = 2 := by
              simp [List.countP_cons, ha, hb, hc, hd, he, hnf]
            simp only [hcount]
            exact decide_eq_false (by
              show ¬ c = b
              intro hcb
              exact absurd (lt_of_lt_of_le hb (not_lt.mp hc)) (by rw [hcb]; exact lt_irrefl b))
          · have hnab : ¬ b = a := by
              intro hba
              exact absurd hab (by rw [hba]; exact lt_irrefl a)
            by_cases ha : a < x
            · have hcount : ([a, b, c, d, e, f] : List ℚ).countP (fun v => decide (v < x)) = 1 := by
                simp [List.countP_cons, ha, hb, hc, hd, he, hnf]
              simp only [hcount]
              exact decide_eq_false hnab
            · have hcount : ([a, b, c, d, e, f] : List ℚ).countP (fun v => decide (v < x)) = 0 := by
                simp [List.countP_cons, ha, hb, hc, hd, he, hnf]
              simp only [hcount]
              exact decide_eq_false hnab

theorem all_len_getD (df : DfOpt) (N : ℕ)
    (h : (df.all fun r => r.offsets.length = N) = true) (r : ℕ) (hr : r < df.length) :
    ((df.getD r default).offsets).length = N := by
  rw [List.all_eq_true] at h
  have hmem : df.getD r default ∈ df := by
    rw [List.getD_eq_getElem?_getD, List.getElem?_eq_getElem hr]
    exact List.getElem_mem hr
  simpa using h _ hmem

theorem map_range_zero_eq_replicate (N : ℕ) :
    (List.range N).map (fun _ => (0 : ℚ)) = List.replicate N 0 := by
  apply List.ext_getElem
  · simp
  · intro n h1 h2
    simp

theorem applyWindSpeedRamps_ok (df out : DfOpt) (wsRes wsMin wsMax cutIn feLo feHi cutOut : ℚ)
    (h : applyWindSpeedRamps df wsRes wsMin wsMax cutIn feLo feHi cutOut = .ok out) :
    df ≠ []
    ∧ (df.all fun r => r.offsets.length = turbCount df) = true
    ∧ out = (List.range ((arangeQ wsMin wsMax wsRes).length * df.length)).map (fun q =>
        { wd := (df.getD (q % df.length) default).wd
          ws := (arangeQ wsMin wsMax wsRes).getD (q / df.length) 0
          ti := (df.getD (q % df.length) default).ti
          offsets := (List.range (turbCount df)).map (fun t =>
            interp1dAt [wsMin, cutIn, feLo, feHi, cutOut, wsMax]
              (rampNodeVal df (q % df.length) t) 0
              ((arangeQ wsMin wsMax wsRes).getD (q / df.length) 0)) }) := by
  simp only [applyWindSpeedRamps] at h
  split at h
  · cases h
  · split at h
    · split at h
      · cases h
      · split at h
        · cases h
        · split at h
          · cases h
          · split at h
            · cases h
            · rename_i hnotempty hragged
              rw [Except.ok.injEq] at h
              refine ⟨?_, ?_, h.symm⟩
              · intro hnil
                rw [hnil] at hnotempty
                exact hnotempty rfl
              · simpa using hragged
    · cases h

/-! ## Claim C7: wind speed ramp values -/

/-- C7 (amended: `ws_min` strictly below cut-in and fully-engaged-high
strictly below cut-out): for a table accepted by `apply_wind_speed_ramps`
under breakpoints `ws_min < cut_in <= fully_engaged_low <= fully_engaged_high
< cut_out <= ws_max`, every output row keeps the wind direction and turbulence
intensity of its source row, rows with wind speed at or below cut-in or at or
above cut-out carry an exactly zero offset vector, rows with wind speed
strictly inside the fully-engaged band carry exactly the source offsets of
the row with the same wind direction and turbulence intensity, and no row's
interpolation hits a degenerate node interval — the float computation of the
program is finite (never the NaN that duplicated leading nodes produce), so
these rational values are the program's values.  (When fully-engaged-high
equals cut-out, the row exactly at cut-out instead keeps the source offsets —
see the counterexample; when `ws_min` equals cut-in, the program's row at
cut-in is NaN, not zero.) -/
theorem applyWindSpeedRamps_values (df out : DfOpt)
    (wsRes wsMin wsMax cutIn feLo feHi cutOut : ℚ)
    (h1 : wsMin < cutIn) (h2 : cutIn ≤ feLo) (h3 : feLo ≤ feHi) (h4 : feHi < cutOut)
    (h5 : cutOut ≤ wsMax)
    (hok : applyWindSpeedRamps df wsRes wsMin wsMax cutIn feLo feHi cutOut = .ok out)
    (q : ℕ) (hq : q < out.length) :
    ((out.getD q default).wd = (df.getD (q % df.length) default).wd
      ∧ (out.getD q default).ti = (df.getD (q % df.length) default).ti)
    ∧ ((out.getD q default).ws ≤ cutIn ∨ (out.getD q default).ws ≥ cutOut →
        (out.getD q default).offsets = List.replicate (turbCount df) 0)
    ∧ (feLo < (out.getD q default).ws ∧ (out.getD q default).ws < feHi →
        (out.getD q default).offsets = (df.getD (q % df.length) default).offsets)
    ∧ interp1dNanAt [wsMin, cutIn, feLo, feHi, cutOut, wsMax]
        ((out.getD q default).ws) = false := by
  obtain ⟨hne, hall, hout⟩ :=
    applyWindSpeedRamps_ok df out wsRes wsMin wsMax cutIn feLo feHi cutOut hok
  have hlen : out.length = (arangeQ wsMin wsMax wsRes).length * df.length := by
    rw [hout]; simp
  have hqlt : q < (arangeQ wsMin wsMax wsRes).length * df.length := by
    rw [← hlen]; exact hq
  have hrow : out.getD q default =
      { wd := (df.getD (q % df.length) default).wd
        ws := (arangeQ wsMin wsMax wsRes).getD (q / df.length) 0
        ti := (df.getD (q % df.length) default).ti
        offsets := (List.range (turbCount df)).map (fun t =>
          interp1dAt [wsMin, cutIn, feLo, feHi, cutOut, wsMax]
            (rampNodeVal df (q % df.length) t) 0
            ((arangeQ wsMin wsMax wsRes).getD (q / df.length) 0)) } := by
    rw [hout]
    exact getD_range_map _ _ q hqlt
  have hRpos : 0 < df.length := List.length_pos.mpr hne
  have hr : q % df.length < df.length := Nat.mod_lt q hRpos
  rw [hrow]
  refine ⟨⟨rfl, rfl⟩, ?_, ?_, ?_⟩
  · intro hws
    simp only at hws ⊢
    rcases hws with hlow | hhigh
    · rw [List.map_congr_left (fun t _ => rampInterp_low wsMin cutIn feLo feHi cutOut wsMax
        _ (rampNodeVal df (q % df.length) t) h1.le h2 h3 h4.le h5
        (by simp [rampNodeVal]) (by simp [rampNodeVal]) hlow)]
      exact map_range_zero_eq_replicate _
    · rw [List.map_congr_left (fun t _ => rampInterp_high wsMin cutIn feLo feHi cutOut wsMax
        _ (rampNodeVal df (q % df.length) t) h1.le h2 h3 h4 h5
        (by simp [rampNodeVal]) (by simp [rampNodeVal]) hhigh)]
      exact map_range_zero_eq_replicate _
  · intro hws
    simp only at hws ⊢
    rw [List.map_congr_left (fun t _ => rampInterp_mid wsMin cutIn feLo feHi cutOut wsMax
      _ (rampNodeVal df (q % df.length) t) h1.le h2 h3 h4.le h5
      (by simp [rampNodeVal]) hws.1 hws.2)]
    have hgv : ∀ t, rampNodeVal df (q % df.length) t 2
        = ((df.getD (q % df.length) default).offsets).getD t 0 := by
      intro t; simp [rampNodeVal]
    rw [List.map_congr_left (fun t _ => hgv t)]
    exact map_getD_range_self _ _ (all_len_getD df (turbCount df) hall _ hr)
  · exact rampInterp_nondegenerate wsMin cutIn feLo feHi cutOut wsMax _ h1 h2 h3 h4 h5

/-- A valid single-direction, single-speed, single-turbine table with wind
speed 8 and offset 20. -/
def tblC7c : DfOpt := [⟨270, 8, 3/50, [20]⟩]

/-- C7 counterexample: with fully-engaged-high equal to cut-out (both 13), the
output row exactly at the cut-out wind speed keeps the source offset 20
instead of the claimed exact zero (left-continuous `searchsorted` resolves the
duplicated node to the fully-engaged segment, over the non-degenerate interval
[5, 13], so the program's value here is finite: the NaN flag is false). -/
theorem ramp_cut_out_row_nonzero_when_fully_engaged_high_eq_cut_out :
    applyWindSpeedRamps tblC7c 1 0 30 3 5 13 13 = .ok (rampOut tblC7c 1 0 30 3 5 13 13)
    ∧ ((rampOut tblC7c 1 0 30 3 5 13 13).getD 13 default).ws = 13
    ∧ ((rampOut tblC7c 1 0 30 3 5 13 13).getD 13 default).offsets = [20]
    ∧ interp1dNanAt [0, 3, 5, 13, 13, 30] 13 = false
    ∧ ((20 : ℚ) ≠ 0) := by
  with_unfolding_all decide

/-- A valid single-row table with wind speed 9/2, inside the engaged band of
the witness breakpoints 3, 4, 5, 6. -/
def tbl7w : DfOpt := [⟨270, 9/2, 3/50, [20]⟩]

/-- Witness for `applyWindSpeedRamps_values`: breakpoints 2 < 3 ≤ 4 ≤ 5 < 6 ≤ 6
with resolution 1/2; the row at wind speed 3 (at cut-in) is zero, the row at
wind speed 9/2 (strictly inside the engaged band) keeps the source offsets,
and the cut-in row's interpolation is NaN-free. -/
theorem applyWindSpeedRamps_values_witness :
    applyWindSpeedRamps tbl7w (1/2) 2 6 3 4 5 6 = .ok (rampOut tbl7w (1/2) 2 6 3 4 5 6)
    ∧ ((rampOut tbl7w (1/2) 2 6 3 4 5 6).getD 2 default).offsets
        = List.replicate (turbCount tbl7w) 0
    ∧ ((rampOut tbl7w (1/2) 2 6 3 4 5 6).getD 5 default).offsets
        = (tbl7w.getD (5 % tbl7w.length) default).offsets
    ∧ interp1dNanAt [2, 3, 4, 5, 6, 6]
        ((rampOut tbl7w (1/2) 2 6 3 4 5 6).getD 2 default).ws = false := by
  have hok : applyWindSpeedRamps tbl7w (1/2) 2 6 3 4 5 6
      = .ok (rampOut tbl7w (1/2) 2 6 3 4 5 6) := by
    with_unfolding_all decide
  refine ⟨hok, ?_, ?_, ?_⟩
  · exact (applyWindSpeedRamps_values tbl7w _ (1/2) 2 6 3 4 5 6 (by norm_num) (by norm_num)
      (by norm_num) (by norm_num) (by norm_num) hok 2
      (by with_unfolding_all decide)).2.1 (Or.inl (by with_unfolding_all decide))
  · exact (applyWindSpeedRamps_values tbl7w _ (1/2) 2 6 3 4 5 6 (by norm_num) (by norm_num)
      (by norm_num) (by norm_num) (by norm_num) hok 5
      (by with_unfolding_all decide)).2.2.1 ⟨by with_unfolding_all decide, by with_unfolding_all decide⟩
  · exact (applyWindSpeedRamps_values tbl7w _ (1/2) 2 6 3 4 5 6 (by norm_num) (by norm_num)
      (by norm_num) (by norm_num) (by norm_num) hok 2
      (by with_unfolding_all decide)).2.2.2

/-! ## compute_hysteresis_zones -/

/-- `np.min` of a list (`0` on an empty list; callers guard emptiness). -/
def listMin : List ℚ → ℚ
  | [] => 0
  | a :: l => l.foldl min a

/-- `np.max` of a list (`0` on an empty list; callers guard emptiness). -/
def listMax : List ℚ → ℚ
  | [] => 0
  | a :: l => l.foldl max a

/-- The zero-padded turbine label `"T{:03d}".format(t)`. -/
def turbineLabel (t : ℕ) : String :=
  "T" ++ (if t < 10 then "00" else if t < 100 then "0" else "") ++ toString t

/-- One hysteresis interval around switching direction `wdc` for turbine `t`:
`lb` is the largest extended direction below `wdc` whose offsets drop below
`0.1` somewhere over (ws, ti); `ub` the smallest above `wdc` with offsets
above `-0.1`; intervals narrower than `min_region_width` are widened
symmetrically.  `np.max`/`np.min` of an empty selection raise. -/
def hystZoneFor (extWds : List ℚ) (extW S T : ℕ) (extA : Arr4) (t : ℕ)
    (minRegionWidth wdc : ℚ) : Except DesignError (ℚ × ℚ) :=
  let lbs := ((List.range extW).filter (fun m =>
    decide (extWds.getD m 0 < wdc) &&
    (List.range S).any (fun j => (List.range T).any (fun k =>
      decide (extA m j k t < 1/10))))).map (fun m => extWds.getD m 0)
  let ubs := ((List.range extW).filter (fun m =>
    decide (extWds.getD m 0 > wdc) &&
    (List.range S).any (fun j => (List.range T).any (fun k =>
      decide (extA m j k t > -(1/10)))))).map (fun m => extWds.getD m 0)
  if lbs.isEmpty || ubs.isEmpty then .error .emptyZoneBound
  else
    let lb := listMax lbs
    let ub := listMin ubs
    if ub - lb < minRegionWidth then
      .ok ((lb + ub) / 2 - minRegionWidth / 2, (lb + ub) / 2 + minRegionWidth / 2)
    else .ok (lb, ub)

/-- `compute_hysteresis_zones(df_opt, min_region_width, yaw_rate_threshold)`.
After the ordering check and reshape, the direction axis is extended by a copy
of the first slice at 360 degrees when the sampled range touches both
boundaries.  `np.argwhere(np.diff(offsets, axis=0) >= yaw_rate_threshold *
wd_step)` keeps only one-sided (positive) jumps; the unique `(i, turbine)`
pairs give, per turbine in ascending order, the switching centre directions
`wd_centers[i]`, each then mapped to an interval by `hystZoneFor`.  Keys are
the zero-padded turbine labels. -/
def computeHysteresisZones (df : DfOpt) (minRegionWidth yawRateThreshold : ℚ) :
    Except DesignError (List (String × List (ℚ × ℚ))) :=
  match checkDfOptOrdering df with
  | .error e => .error e
  | .ok () =>
    if df.isEmpty then .error .emptyTable
    else if ¬ (df.all fun r => r.offsets.length = turbCount df) then .error .raggedOffsets
    else
      let wds := uniqueSorted (df.map OptRow.wd)
      let S := wsCount df
      let T := tiCount df
      let N := turbCount df
      let A := tableArr df S T
      if wds.length = 1 then .error .singleWindDirection
      else
        let W := wds.length
        let wdStep := wds.getD 1 0 - wds.getD 0 0
        let wrap := decide (wds.getD 0 0 - wdStep < 0) && decide (wds.getLastD 0 + wdStep ≥ 360)
        let extW := if wrap then W + 1 else W
        let extA : Arr4 := fun i j k t => if wrap && decide (i = W) then A 0 j k t else A i j k t
        let extWds := if wrap then wds ++ [wds.getLastD 0 + wdStep] else wds
        let wdCenters := if wrap then wds.map (fun w => w + wdStep / 2)
          else wds.dropLast.map (fun w => w + wdStep / 2)
        let switchIdxs := fun t => (List.range (extW - 1)).filter (fun i =>
          (List.range S).any (fun j => (List.range T).any (fun k =>
            decide (extA (i + 1) j k t - extA i j k t ≥ yawRateThreshold * wdStep))))
        let ts := (List.range N).filter (fun t => !(switchIdxs t).isEmpty)
        (ts.mapM (fun t => do
          let zones ← (switchIdxs t).mapM (fun i =>
            hystZoneFor extWds extW S T extA t minRegionWidth (wdCenters.getD i 0))
          pure (turbineLabel t, zones)))

/-! ## Claim C3: hysteresis detection on the 0/20-degree scenario -/

/-- Scenario table of C3: directions 0, 5, ..., 355, single wind speed 8 and
turbulence intensity 0.06, one turbine with offset 20 for directions in
[260, 280] (indices 52 to 56) and 0 elsewhere. -/
def hystTbl : DfOpt :=
  (List.range 72).map (fun i =>
    { wd := 5 * (i : ℚ), ws := 8, ti := 3/50
      offsets := if 52 ≤ i ∧ i ≤ 56 then [20] else [0] })

/-- C3 counterexample: on the scenario table with `min_region_width = 2` and
`yaw_rate_threshold = 1` (so a 20-degree jump over a 5-degree step far exceeds
`threshold * step = 5`), `compute_hysteresis_zones` emits exactly ONE zone,
(255, 260), at the offset rise, and no zone whose upper bound goes beyond 260:
the 20-degree drop at 280 degrees is never detected, because
`np.diff(...) >= yaw_rate_threshold * wd_step` keeps only positive jumps.  The
claimed second zone bracketing roughly 280 degrees does not exist. -/
theorem hysteresis_drop_not_detected :
    computeHysteresisZones hystTbl 2 1 = .ok [("T000", [(255, 260)])]
    ∧ ∀ z ∈ [((255 : ℚ), (260 : ℚ))], z.2 ≤ 260 := by
  constructor
  · with_unfolding_all decide
  · intro z hz
    simp only [List.mem_singleton] at hz
    rw [hz]

/-- The scenario table with two identical turbines. -/
def hystTbl2 : DfOpt :=
  (List.range 72).map (fun i =>
    { wd := 5 * (i : ℚ), ws := 8, ti := 3/50
      offsets := if 52 ≤ i ∧ i ≤ 56 then [20, 20] else [0, 0] })

/-- C3 (amended to the scenario the claim fixes, with the drop dropped): on
the claimed grid — directions 0, 5, ..., 355, single wind speed 8, single
turbulence intensity 0.06, offsets 20 degrees on [260, 280] and 0 elsewhere,
here with two turbines — `compute_hysteresis_zones` with `min_region_width 2`
and `yaw_rate_threshold 1` (the 20-degree jump over one 5-degree step exceeds
`threshold * step = 5`) emits for every turbine of the table exactly ONE
hysteresis zone, (255, 260): the lower bound 255 is the largest direction
below the switching centre 257.5 whose offsets fall below 0.1, the upper
bound 260 the smallest direction above it with offsets above -0.1, and the
width 5 already exceeds `min_region_width`, so no widening applies.  The
offset drop at 280 degrees yields no zone at all, because
`np.diff >= yaw_rate_threshold * wd_step` treats only positive jumps as
switching points. -/
theorem hysteresis_one_zone_per_turbine_at_rise :
    computeHysteresisZones hystTbl2 2 1
      = .ok [("T000", [(255, 260)]), ("T001", [(255, 260)])] := by
  with_unfolding_all decide

/-! ## get_yaw_angles_interpolant -/

/-- `np.median` of a (sorted) list: middle element for odd lengths, the mean
of the two middle elements for even lengths. -/
def medianQ (l : List ℚ) : ℚ :=
  if l.length % 2 = 1 then l.getD (l.length / 2) 0
  else (l.getD (l.length / 2 - 1) 0 + l.getD (l.length / 2) 0) / 2

/-- Pad a list with copies of its first and last entries
(`np.concatenate([X[0:1], X, X[-1:]])`). -/
def padEnds {α : Type} (X : List α) : List α := X.take 1 ++ X ++ X.drop (X.length - 1)

/-- The raw 4-D offsets grid `[wd][ws][ti][turbine]` reshaped from the table. -/
def rawVals (df : DfOpt) : List (List (List (List ℚ))) :=
  (List.range (wdCount df)).map (fun i =>
    (List.range (wsCount df)).map (fun j =>
      (List.range (tiCount df)).map (fun k =>
        (List.range (turbCount df)).map (fun t =>
          tableArr df (wsCount df) (tiCount df) i j k t))))

/-- Whether the wind-direction axis wraps: the first sampled direction is 0. -/
def wrapWd (df : DfOpt) : Bool := decide ((uniqueSorted (df.map OptRow.wd)).headD 0 = 0)

/-- The interpolant's wind-direction axis: extended by 360 degrees when the
first sampled direction is exactly 0 (otherwise only a console notice is
printed and the axis is kept as sampled). -/
def itpWdAxis (df : DfOpt) : List ℚ :=
  if wrapWd df then uniqueSorted (df.map OptRow.wd) ++ [360]
  else uniqueSorted (df.map OptRow.wd)

/-- The interpolant's wind-speed axis, padded with the sentinels -1 and 999. -/
def itpWsAxis (df : DfOpt) : List ℚ := -1 :: (uniqueSorted (df.map OptRow.ws) ++ [999])

/-- The interpolant's turbulence-intensity axis, padded with -1 and 999. -/
def itpTiAxis (df : DfOpt) : List ℚ := -1 :: (uniqueSorted (df.map OptRow.ti) ++ [999])

/-- The interpolant's padded value grid: the first wind-direction slice is
appended at 360 when wrapping, then the wind-speed and turbulence-intensity
axes are padded by duplicated edge slices. -/
def itpVals (df : DfOpt) : List (List (List (List ℚ))) :=
  ((if wrapWd df then rawVals df ++ (rawVals df).take 1 else rawVals df).map padEnds).map
    (fun X => X.map padEnds)

/-- The data of the interpolant closure returned by
`get_yaw_angles_interpolant`: the three (extended, padded) axes, the fallback
turbulence intensity `ti_ref`, and the padded value grid. -/
structure YawInterpolant where
  wds : List ℚ
  wss : List ℚ
  tis : List ℚ
  tiRef : ℚ
  vals : List (List (List (List ℚ)))
  deriving DecidableEq, Repr

/-- `get_yaw_angles_interpolant(df_opt)`: checks the ordering, reshapes and
pads the offsets grid, and builds the interpolant data.
`RegularGridInterpolator` requires every axis to be strictly ascending, which
the padding violates when a sampled value falls outside (-1, 999) (or a
sampled direction reaches 360 while wrapping). -/
def getYawAnglesInterpolant (df : DfOpt) : Except DesignError YawInterpolant :=
  match checkDfOptOrdering df with
  | .error e => .error e
  | .ok () =>
    if df.isEmpty then .error .emptyTable
    else if ¬ (df.all fun r => r.offsets.length = turbCount df) then .error .raggedOffsets
    else if strictAscB (itpWdAxis df) && strictAscB (itpWsAxis df)
        && strictAscB (itpTiAxis df) then
      .ok ⟨itpWdAxis df, itpWsAxis df, itpTiAxis df,
        medianQ (uniqueSorted (df.map OptRow.ti)), itpVals df⟩
    else .error .nonAscendingGrid

/-- Entry `[i][j][k][t]` of the padded value grid (0 outside). -/
def val4 (itp : YawInterpolant) (i j k t : ℕ) : ℚ :=
  (((itp.vals.getD i []).getD j []).getD k []).getD t 0

/-- Number of turbines of the interpolant (innermost width of the grid). -/
def numTurbines (itp : YawInterpolant) : ℕ :=
  (((itp.vals.headD []).headD []).headD []).length

/-- One axis of `RegularGridInterpolator` linear evaluation: the lower node is
`np.searchsorted(xs, q) - 1` clipped to `[0, len - 2]` and the value is the
convex combination of the two bracketing node values. -/
def linAxis (xs : List ℚ) (q : ℚ) (f : ℕ → ℚ) : ℚ :=
  let idx := min (max (xs.countP (fun v => decide (v < q))) 1) (xs.length - 1)
  let lo := idx - 1
  let lam := (q - xs.getD lo 0) / (xs.getD idx 0 - xs.getD lo 0)
  (1 - lam) * f lo + lam * f idx

/-- The trilinear interpolated offset of turbine `t` at a query point, the
tensor-product (multilinear) interpolation evaluated axis by axis. -/
def interpValAt (itp : YawInterpolant) (wd ws ti : ℚ) (t : ℕ) : ℚ :=
  linAxis itp.wds wd (fun i => linAxis itp.wss ws (fun j =>
    linAxis itp.tis ti (fun k => val4 itp i j k t)))

/-- The interpolant closure `yaw_angle_interpolant(wd, ws, ti)` on one query
point: a missing turbulence intensity defaults to `ti_ref`; queries outside
the axis bounds raise the bounds `ValueError` carrying the axis bounds and the
queried values; in-range queries return the interpolated per-turbine offsets. -/
def queryYawInterpolant (itp : YawInterpolant) (wd ws : ℚ) (tio : Option ℚ) :
    Except DesignError (List ℚ) :=
  let ti := tio.getD itp.tiRef
  if wd < listMin itp.wds ∨ wd > listMax itp.wds
      ∨ ws < listMin itp.wss ∨ ws > listMax itp.wss
      ∨ ti < listMin itp.tis ∨ ti > listMax itp.tis then
    .error (.outOfBounds (listMin itp.wds) (listMax itp.wds) (listMin itp.wss)
      (listMax itp.wss) (listMin itp.tis) (listMax itp.tis) wd ws ti)
  else .ok ((List.range (numTurbines itp)).map (fun t => interpValAt itp wd ws ti t))

/-! ### Node evaluation of the axis interpolation -/

theorem strictAscB_getD_lt_succ (xs : List ℚ) (hasc : strictAscB xs = true)
    (m : ℕ) (hm : m + 1 < xs.length) : xs.getD m 0 < xs.getD (m + 1) 0 := by
  induction xs generalizing m with
  | nil => cases hm
  | cons a l ih =>
      cases m with
      | zero =>
          have hl : 0 < l.length := by simpa using hm
          show a < l.getD 0 0
          apply strictAscB_cons_head_lt hasc
          rw [List.getD_eq_getElem?_getD, List.getElem?_eq_getElem hl]
          exact List.getElem_mem hl
      | succ m =>
          show l.getD m 0 < l.getD (m + 1) 0
          exact ih (strictAscB_tail hasc) m (by simpa using hm)

theorem strictAscB_getD_mem (xs : List ℚ) (m : ℕ) (hm : m < xs.length) :
    xs.getD m 0 ∈ xs := by
  rw [List.getD_eq_getElem?_getD, List.getElem?_eq_getElem hm]
  exact List.getElem_mem hm

theorem countP_lt_node (xs : List ℚ) (hasc : strictAscB xs = true) :
    ∀ m, m < xs.length → xs.countP (fun v => decide (v < xs.getD m 0)) = m := by
  induction xs with
  | nil => intro m hm; cases hm
  | cons a l ih =>
      intro m hm
      cases m with
      | zero =>
          rw [List.countP_cons]
          have h2 : l.countP (fun v => decide (v < (a :: l).getD 0 0)) = 0 := by
            rw [List.countP_eq_zero]
            intro v hv
            simp only [decide_eq_true_eq]
            exact not_lt.mpr (strictAscB_cons_head_lt hasc v hv).le
          rw [h2]
          have h3 : (a :: l).getD 0 0 = a := rfl
          simp [h3]
      | succ m =>
          rw [List.countP_cons]
          have hm' : m < l.length := by simpa using hm
          have hgd : (a :: l).getD (m + 1) 0 = l.getD m 0 := rfl
          rw [hgd]
          have ha : a < l.getD m 0 :=
            strictAscB_cons_head_lt hasc _ (strictAscB_getD_mem l m hm')
          have hcl := ih (strictAscB_tail hasc) m hm'
          rw [hcl]
          have ha2 : a < l[m]?.getD 0 := by
            rw [← List.getD_eq_getElem?_getD]
            exact ha
          simp [ha2]

theorem linAxis_congr (xs : List ℚ) (q : ℚ) (f g : ℕ → ℚ) (h : ∀ i, f i = g i) :
    linAxis xs q f = linAxis xs q g := by
  unfold linAxis
  simp only [h]

theorem linAxis_at_node (xs : List ℚ) (hasc : strictAscB xs = true) (f : ℕ → ℚ)
    (m : ℕ) (hm : m < xs.length) :
    linAxis xs (xs.getD m 0) f = f m := by
  unfold linAxis
  rw [countP_lt_node xs hasc m hm]
  by_cases hn1 : xs.length = 1
  · have hm0 : m = 0 := by omega
    subst hm0
    rw [hn1]
    norm_num
  · have hn2 : 2 ≤ xs.length := by omega
    cases m with
    | zero =>
        have hidx : min (max 0 1) (xs.length - 1) = 1 := by omega
        rw [hidx]
        norm_num
    | succ m =>
        have hidx : min (max (m + 1) 1) (xs.length - 1) = m + 1 := by omega
        rw [hidx]
        have hne : xs.getD (m + 1) 0 - xs.getD m 0 ≠ 0 := by
          have := strictAscB_getD_lt_succ xs hasc m hm
          intro hc
          rw [sub_eq_zero] at hc
          exact absurd hc (ne_of_gt this)
        simp only [Nat.add_sub_cancel]
        rw [div_self ?_]
        · ring
        · exact sub_ne_zero.mpr (ne_of_gt (strictAscB_getD_lt_succ xs hasc m hm))

/-! ### Minimum and maximum of sorted axes -/

theorem foldl_min_const (a : ℚ) (l : List ℚ) (h : ∀ y ∈ l, a ≤ y) : l.foldl min a = a := by
  induction l generalizing a with
  | nil => rfl
  | cons y r ih =>
      simp only [List.foldl_cons]
      rw [min_eq_left (h y (by simp))]
      exact ih a (fun z hz => h z (by simp [hz]))

theorem listMin_eq_head (l : List ℚ) (hasc : strictAscB l = true) (hne : l ≠ []) :
    listMin l = l.headD 0 := by
  cases l with
  | nil => cases hne rfl
  | cons a r =>
      show r.foldl min a = a
      exact foldl_min_const a r (fun y hy => (strictAscB_cons_head_lt hasc y hy).le)

theorem listMax_eq_last (l : List ℚ) (hasc : strictAscB l = true) (hne : l ≠ []) :
    listMax l = l.getLastD 0 := by
  induction l with
  | nil => cases hne rfl
  | cons a r ih =>
      cases r with
      | nil => rfl
      | cons b rr =>
          have hab : a < b := by
            have := hasc
            simp only [strictAscB, Bool.and_eq_true, decide_eq_true_eq] at this
            exact this.1
          have htl := ih (strictAscB_tail hasc) (by simp)
          show (b :: rr).foldl max a = (a :: b :: rr).getLastD 0
          simp only [List.foldl_cons]
          rw [max_eq_right hab.le]
          have h1 : (b :: rr).foldl max b = rr.foldl max b := by
            simp only [List.foldl_cons, max_self]
          have h2 : listMax (b :: rr) = rr.foldl max b := rfl
          rw [List.getLastD_cons]
          rw [← h2, htl]
          rw [List.getLastD_eq_getLast?, List.getLastD_eq_getLast?]
          have hsome : (b :: rr).getLast?.isSome := by
            rw [List.getLast?_isSome]
            simp
          obtain ⟨x, hx⟩ := Option.isSome_iff_exists.mp hsome
          rw [hx]
          rfl

theorem getLastD_eq_getLast {α : Type} (d : α) (X : List α) (hne : X ≠ []) :
    X.getLastD d = X.getLast hne := by
  rw [List.getLastD_eq_getLast?, List.getLast?_eq_getLast X hne]
  rfl

theorem getLastD_mem {α : Type} (l : List α) (hne : l ≠ []) (d : α) : l.getLastD d ∈ l := by
  rw [getLastD_eq_getLast d l hne]
  exact List.getLast_mem hne

theorem strictAscB_headD_le_mem (l : List ℚ) (hasc : strictAscB l = true) :
    ∀ y ∈ l, l.headD 0 ≤ y := by
  cases l with
  | nil => intro y hy; cases hy
  | cons a r =>
      intro y hy
      rcases List.mem_cons.mp hy with rfl | hy
      · exact le_refl y
      · exact (strictAscB_cons_head_lt hasc y hy).le

theorem strictAscB_mem_le_last (l : List ℚ) (hasc : strictAscB l = true) :
    ∀ y ∈ l, y ≤ l.getLastD 0 := by
  induction l with
  | nil => intro y hy; cases hy
  | cons a r ih =>
      intro y hy
      rcases List.mem_cons.mp hy with rfl | hy
      · cases r with
        | nil => exact le_refl y
        | cons b rr =>
            rw [List.getLastD_cons]
            rw [getLastD_eq_getLast y (b :: rr) (by simp)]
            exact (strictAscB_cons_head_lt hasc _ (List.getLast_mem _)).le
      · have hne : r ≠ [] := List.ne_nil_of_mem hy
        rw [List.getLastD_cons, getLastD_eq_getLast a r hne, ← getLastD_eq_getLast 0 r hne]
        exact ih (strictAscB_tail hasc) y hy

theorem drop_length_sub_one {α : Type} (d : α) :
    ∀ (X : List α), X ≠ [] → X.drop (X.length - 1) = [X.getLastD d]
  | [a], _ => rfl
  | a :: b :: r, _ => by
      have hih := drop_length_sub_one d (b :: r) (by simp)
      show List.drop (r.length + 1) (a :: b :: r) = [(a :: b :: r).getLastD d]
      rw [List.drop_succ_cons]
      have hih2 : List.drop r.length (b :: r) = [(b :: r).getLastD d] := hih
      rw [hih2]
      simp [List.getLastD_cons]

theorem padEnds_getElem?_zero {α : Type} (a : α) (l : List α) :
    (padEnds (a :: l))[0]? = some a ∧ (padEnds (a :: l))[1]? = some a := by
  unfold padEnds
  simp

theorem padEnds_getElem?_last {α : Type} (d : α) (X : List α) (hne : X ≠ []) :
    (padEnds X)[X.length + 1]? = some (X.getLastD d)
    ∧ (padEnds X)[X.length]? = some (X.getLastD d) := by
  unfold padEnds
  rw [drop_length_sub_one d X hne]
  cases X with
  | nil => cases hne rfl
  | cons a l =>
      constructor
      · show (([a] ++ (a :: l)) ++ [(a :: l).getLastD d])[(a :: l).length + 1]? = _
        rw [List.getElem?_append_right (by simp)]
        simp
      · show (([a] ++ (a :: l)) ++ [(a :: l).getLastD d])[(a :: l).length]? = _
        rw [List.getElem?_append_left (by simp)]
        show (a :: (a :: l))[l.length + 1]? = _
        rw [List.getElem?_cons_succ]
        have hlt : l.length < (a :: l).length := by simp
        rw [List.getElem?_eq_getElem hlt]
        rw [getLastD_eq_getLast d (a :: l) (by simp), List.getLast_eq_getElem]
        congr 1

theorem padEnds_length {α : Type} (X : List α) (hne : X ≠ []) :
    (padEnds X).length = X.length + 2 := by
  unfold padEnds
  cases X with
  | nil => cases hne rfl
  | cons a l =>
      rw [drop_length_sub_one a (a :: l) (by simp)]
      simp

theorem getYawAnglesInterpolant_ok (df : DfOpt) (itp : YawInterpolant)
    (h : getYawAnglesInterpolant df = .ok itp) :
    df ≠ []
    ∧ (df.all fun r => r.offsets.length = turbCount df) = true
    ∧ itp = ⟨itpWdAxis df, itpWsAxis df, itpTiAxis df,
        medianQ (uniqueSorted (df.map OptRow.ti)), itpVals df⟩
    ∧ strictAscB (itpWdAxis df) = true ∧ strictAscB (itpWsAxis df) = true
    ∧ strictAscB (itpTiAxis df) = true := by
  simp only [getYawAnglesInterpolant] at h
  split at h
  · cases h
  · split at h
    · cases h
    · split at h
      · cases h
      · split at h
        · rename_i hempty hragged hasc
          rw [Except.ok.injEq] at h
          simp only [Bool.and_eq_true] at hasc
          refine ⟨?_, by simpa using hragged, h.symm, hasc.1.1, hasc.1.2, hasc.2⟩
          intro hnil
          rw [hnil] at hempty
          exact hempty rfl
        · cases h

/-! ### Padding equalities of the interpolant value grid -/

theorem getD_map_nilp {α β : Type} (f : List α → List β) (hf : f [] = [])
    (A : List (List α)) (j : ℕ) : (A.map f).getD j [] = f (A.getD j []) := by
  rw [List.getD_eq_getElem?_getD, List.getD_eq_getElem?_getD, List.getElem?_map]
  cases A[j]? with
  | none => simpa using hf.symm
  | some X => rfl

theorem padEnds_nil {α : Type} : padEnds ([] : List α) = [] := rfl

theorem map_padEnds_nil {α : Type} : List.map padEnds ([] : List (List α)) = [] := rfl

theorem padEnds_getD_zero_one {α : Type} (Z : List α) (d : α) :
    (padEnds Z).getD 0 d = (padEnds Z).getD 1 d := by
  cases Z with
  | nil => rfl
  | cons a l =>
      obtain ⟨h0, h1⟩ := padEnds_getElem?_zero a l
      rw [List.getD_eq_getElem?_getD, List.getD_eq_getElem?_getD, h0, h1]

theorem padEnds_getD_last_pair {α : Type} (Z : List α) (d : α) (hne : Z ≠ []) :
    (padEnds Z).getD (Z.length + 1) d = (padEnds Z).getD Z.length d := by
  obtain ⟨h0, h1⟩ := padEnds_getElem?_last d Z hne
  rw [List.getD_eq_getElem?_getD, List.getD_eq_getElem?_getD, h0, h1]

theorem mem_rawVals_shape (df : DfOpt) (x : List (List (List ℚ)))
    (hx : x ∈ rawVals df) :
    x.length = wsCount df ∧ ∀ y ∈ x, y.length = tiCount df := by
  unfold rawVals at hx
  obtain ⟨i, hi, rfl⟩ := List.mem_map.mp hx
  constructor
  · simp
  · intro y hy
    obtain ⟨j, hj, rfl⟩ := List.mem_map.mp hy
    simp

/-- The wind-direction-extended grid before ws/ti padding. -/
def extVals (df : DfOpt) : List (List (List (List ℚ))) :=
  if wrapWd df then rawVals df ++ (rawVals df).take 1 else rawVals df

theorem mem_extVals_shape (df : DfOpt) (x : List (List (List ℚ)))
    (hx : x ∈ extVals df) :
    x.length = wsCount df ∧ ∀ y ∈ x, y.length = tiCount df := by
  apply mem_rawVals_shape df x
  unfold extVals at hx
  split at hx
  · rcases List.mem_append.mp hx with h | h
    · exact h
    · exact List.mem_of_mem_take h
  · exact hx

theorem itpVals_eq_extVals_map (df : DfOpt) :
    itpVals df = (extVals df).map (fun Xi => (padEnds Xi).map padEnds) := by
  unfold itpVals extVals
  rw [List.map_map]
  rfl

theorem itpVals_getD (df : DfOpt) (i : ℕ) :
    (itpVals df).getD i [] = (padEnds ((extVals df).getD i [])).map padEnds := by
  rw [itpVals_eq_extVals_map]
  exact getD_map_nilp _ rfl _ i

theorem getD_mem_of_ne {α : Type} (l : List α) (i : ℕ) (d : α) (h : l.getD i d ≠ d) :
    l.getD i d ∈ l := by
  by_cases hi : i < l.length
  · rw [List.getD_eq_getElem?_getD, List.getElem?_eq_getElem hi]
    exact List.getElem_mem hi
  · exfalso
    apply h
    rw [List.getD_eq_getElem?_getD, List.getElem?_eq_none (by omega)]
    rfl

theorem val4_ws_head (df : DfOpt) (itp : YawInterpolant) (hv : itp.vals = itpVals df)
    (i k t : ℕ) : val4 itp i 0 k t = val4 itp i 1 k t := by
  unfold val4
  rw [hv, itpVals_getD, getD_map_nilp padEnds rfl, getD_map_nilp padEnds rfl,
    padEnds_getD_zero_one]

theorem val4_ws_last (df : DfOpt) (itp : YawInterpolant) (hv : itp.vals = itpVals df)
    (i k t : ℕ) :
    val4 itp i (wsCount df + 1) k t = val4 itp i (wsCount df) k t := by
  unfold val4
  rw [hv, itpVals_getD, getD_map_nilp padEnds rfl, getD_map_nilp padEnds rfl]
  by_cases hXi : (extVals df).getD i [] = []
  · rw [hXi, padEnds_nil]
    simp
  · have hmem : (extVals df).getD i [] ∈ extVals df := getD_mem_of_ne _ _ _ hXi
    have hlen : ((extVals df).getD i []).length = wsCount df :=
      (mem_extVals_shape df _ hmem).1
    rw [← hlen, padEnds_getD_last_pair _ [] hXi]

theorem val4_ti_head (df : DfOpt) (itp : YawInterpolant) (hv : itp.vals = itpVals df)
    (i j t : ℕ) : val4 itp i j 0 t = val4 itp i j 1 t := by
  unfold val4
  rw [hv, itpVals_getD, getD_map_nilp padEnds rfl, padEnds_getD_zero_one]

theorem val4_ti_last (df : DfOpt) (itp : YawInterpolant) (hv : itp.vals = itpVals df)
    (i j t : ℕ) :
    val4 itp i j (tiCount df + 1) t = val4 itp i j (tiCount df) t := by
  unfold val4
  rw [hv, itpVals_getD, getD_map_nilp padEnds rfl]
  by_cases hz : (padEnds ((extVals df).getD i [])).getD j [] = []
  · rw [hz, padEnds_nil]
    simp
  · have hzmem : (padEnds ((extVals df).getD i [])).getD j []
        ∈ padEnds ((extVals df).getD i []) := getD_mem_of_ne _ _ _ hz
    have hzXi : (padEnds ((extVals df).getD i [])).getD j [] ∈ (extVals df).getD i [] := by
      unfold padEnds at hzmem
      rcases List.mem_append.mp hzmem with h | h
      · rcases List.mem_append.mp h with h2 | h2
        · exact List.mem_of_mem_take h2
        · exact h2
      · exact List.mem_of_mem_drop h
    have hXimem : (extVals df).getD i [] ∈ extVals df := by
      apply getD_mem_of_ne
      intro hc
      rw [hc] at hzXi
      cases hzXi
    have hlen : ((padEnds ((extVals df).getD i [])).getD j []).length = tiCount df :=
      (mem_extVals_shape df _ hXimem).2 _ hzXi
    rw [← hlen, padEnds_getD_last_pair _ [] hz]

theorem getD_append_singleton_last {α : Type} (l : List α) (z d : α) :
    (l ++ [z]).getD l.length d = z := by
  rw [List.getD_eq_getElem?_getD, List.getElem?_append_right (le_refl _)]
  simp

theorem itpWsAxis_length (df : DfOpt) : (itpWsAxis df).length = wsCount df + 2 := by
  simp [itpWsAxis, wsCount]

theorem itpTiAxis_length (df : DfOpt) : (itpTiAxis df).length = tiCount df + 2 := by
  simp [itpTiAxis, tiCount]

theorem itpWsAxis_getD_last (df : DfOpt) :
    (itpWsAxis df).getD (wsCount df + 1) 0 = 999 := by
  exact getD_append_singleton_last (uniqueSorted (df.map OptRow.ws)) (999 : ℚ) 0

theorem itpTiAxis_getD_last (df : DfOpt) :
    (itpTiAxis df).getD (tiCount df + 1) 0 = 999 := by
  exact getD_append_singleton_last (uniqueSorted (df.map OptRow.ti)) (999 : ℚ) 0

theorem itpWsAxis_min (df : DfOpt) (hasc : strictAscB (itpWsAxis df) = true) :
    listMin (itpWsAxis df) = -1 := by
  rw [listMin_eq_head _ hasc (by simp [itpWsAxis])]
  rfl

theorem itpWsAxis_max (df : DfOpt) (hasc : strictAscB (itpWsAxis df) = true) :
    listMax (itpWsAxis df) = 999 := by
  rw [listMax_eq_last _ hasc (by simp [itpWsAxis])]
  show (-1 :: (uniqueSorted (df.map OptRow.ws) ++ [999])).getLastD 0 = 999
  rw [List.getLastD_cons, List.getLastD_concat]

theorem itpTiAxis_min (df : DfOpt) (hasc : strictAscB (itpTiAxis df) = true) :
    listMin (itpTiAxis df) = -1 := by
  rw [listMin_eq_head _ hasc (by simp [itpTiAxis])]
  rfl

theorem itpTiAxis_max (df : DfOpt) (hasc : strictAscB (itpTiAxis df) = true) :
    listMax (itpTiAxis df) = 999 := by
  rw [listMax_eq_last _ hasc (by simp [itpTiAxis])]
  show (-1 :: (uniqueSorted (df.map OptRow.ti) ++ [999])).getLastD 0 = 999
  rw [List.getLastD_cons, List.getLastD_concat]

/-- Any node of a strictly ascending axis lies between the axis minimum and
maximum. -/
theorem node_within_bounds (xs : List ℚ) (hasc : strictAscB xs = true) (m : ℕ)
    (hm : m < xs.length) :
    listMin xs ≤ xs.getD m 0 ∧ xs.getD m 0 ≤ listMax xs := by
  have hne : xs ≠ [] := by
    intro hc
    rw [hc] at hm
    cases hm
  have hmem := strictAscB_getD_mem xs m hm
  constructor
  · rw [listMin_eq_head _ hasc hne]
    exact strictAscB_headD_le_mem xs hasc _ hmem
  · rw [listMax_eq_last _ hasc hne]
    exact strictAscB_mem_le_last xs hasc _ hmem

theorem interpValAt_nodes (itp : YawInterpolant)
    (hascs : strictAscB itp.wss = true) (hasct : strictAscB itp.tis = true)
    (m1 m2 n1 n2 : ℕ)
    (hm1 : m1 < itp.wss.length) (hm2 : m2 < itp.wss.length)
    (hn1 : n1 < itp.tis.length) (hn2 : n2 < itp.tis.length)
    (hval : ∀ i t, val4 itp i m1 n1 t = val4 itp i m2 n2 t) (wd : ℚ) (t : ℕ) :
    interpValAt itp wd (itp.wss.getD m1 0) (itp.tis.getD n1 0) t
      = interpValAt itp wd (itp.wss.getD m2 0) (itp.tis.getD n2 0) t := by
  unfold interpValAt
  apply linAxis_congr
  intro i
  rw [linAxis_at_node itp.wss hascs _ m1 hm1, linAxis_at_node itp.wss hascs _ m2 hm2,
    linAxis_at_node itp.tis hasct _ n1 hn1, linAxis_at_node itp.tis hasct _ n2 hn2]
  exact hval i t

/-- In-range queries of the interpolant succeed with the interpolated vector. -/
theorem queryYawInterpolant_ok_of_inbounds (itp : YawInterpolant) (wd ws ti : ℚ)
    (h1 : listMin itp.wds ≤ wd) (h2 : wd ≤ listMax itp.wds)
    (h3 : listMin itp.wss ≤ ws) (h4 : ws ≤ listMax itp.wss)
    (h5 : listMin itp.tis ≤ ti) (h6 : ti ≤ listMax itp.tis) :
    queryYawInterpolant itp wd ws (some ti)
      = .ok ((List.range (numTurbines itp)).map (fun t => interpValAt itp wd ws ti t)) := by
  unfold queryYawInterpolant
  simp only [Option.getD_some]
  rw [if_neg]
  intro h
  rcases h with h | h | h | h | h | h <;> linarith

/-- C4: for every interpolant built by `get_yaw_angles_interpolant`, queries
with wind speed and turbulence intensity exactly at the padded sentinel
boundaries (-1 or 999 on both axes) succeed and return the edge-held offsets,
i.e. exactly the vector obtained by querying at the corresponding extreme
sampled wind speed and turbulence intensity; and every query with at least one
coordinate strictly outside the padded range of its axis returns the bounds
error carrying the violated axis bounds and the offending queried values
(never a value). -/
theorem interpolant_sentinel_and_bounds (df : DfOpt) (itp : YawInterpolant)
    (hok : getYawAnglesInterpolant df = .ok itp) :
    (∀ wd sws sti, (sws = -1 ∨ sws = 999) → (sti = -1 ∨ sti = 999) →
      listMin itp.wds ≤ wd → wd ≤ listMax itp.wds →
      ∃ v, queryYawInterpolant itp wd sws (some sti) = .ok v
        ∧ queryYawInterpolant itp wd
            (itp.wss.getD (if sws = -1 then 1 else itp.wss.length - 2) 0)
            (some (itp.tis.getD (if sti = -1 then 1 else itp.tis.length - 2) 0)) = .ok v)
    ∧ (∀ wd ws ti, (wd < listMin itp.wds ∨ wd > listMax itp.wds
        ∨ ws < listMin itp.wss ∨ ws > listMax itp.wss
        ∨ ti < listMin itp.tis ∨ ti > listMax itp.tis) →
      queryYawInterpolant itp wd ws (some ti)
        = .error (.outOfBounds (listMin itp.wds) (listMax itp.wds) (listMin itp.wss)
            (listMax itp.wss) (listMin itp.tis) (listMax itp.tis) wd ws ti)) := by
  obtain ⟨hne, hall, hitp, hascw, hascs, hasct⟩ := getYawAnglesInterpolant_ok df itp hok
  have hwss : itp.wss = itpWsAxis df := by rw [hitp]
  have htis : itp.tis = itpTiAxis df := by rw [hitp]
  have hvals : itp.vals = itpVals df := by rw [hitp]
  have hascs2 : strictAscB itp.wss = true := by rw [hwss]; exact hascs
  have hasct2 : strictAscB itp.tis = true := by rw [htis]; exact hasct
  have hlenS : itp.wss.length = wsCount df + 2 := by rw [hwss, itpWsAxis_length]
  have hlenT : itp.tis.length = tiCount df + 2 := by rw [htis, itpTiAxis_length]
  have hws0 : itp.wss.getD 0 0 = -1 := by rw [hwss]; rfl
  have hti0 : itp.tis.getD 0 0 = -1 := by rw [htis]; rfl
  have hwsL : itp.wss.getD (wsCount df + 1) 0 = 999 := by
    rw [hwss]; exact itpWsAxis_getD_last df
  have htiL : itp.tis.getD (tiCount df + 1) 0 = 999 := by
    rw [htis]; exact itpTiAxis_getD_last df
  have hminws : listMin itp.wss = -1 := by rw [hwss]; exact itpWsAxis_min df hascs
  have hmaxws : listMax itp.wss = 999 := by rw [hwss]; exact itpWsAxis_max df hascs
  have hminti : listMin itp.tis = -1 := by rw [htis]; exact itpTiAxis_min df hasct
  have hmaxti : listMax itp.tis = 999 := by rw [htis]; exact itpTiAxis_max df hasct
  constructor
  · intro wd sws sti hsws hsti hlo hhi
    -- express the sentinels as axis nodes
    have hm1ex : ∃ m1, m1 < itp.wss.length ∧ sws = itp.wss.getD m1 0
        ∧ (if sws = -1 then 1 else itp.wss.length - 2)
          = (if sws = -1 then 1 else wsCount df)
        ∧ ((sws = -1 ∧ m1 = 0) ∨ (sws = 999 ∧ m1 = wsCount df + 1)) := by
      rcases hsws with rfl | rfl
      · exact ⟨0, by omega, hws0.symm, by norm_num, Or.inl ⟨rfl, rfl⟩⟩
      · refine ⟨wsCount df + 1, by omega, hwsL.symm, ?_, Or.inr ⟨rfl, rfl⟩⟩
        rw [if_neg (by norm_num), if_neg (by norm_num), hlenS]
        omega
    have hn1ex : ∃ n1, n1 < itp.tis.length ∧ sti = itp.tis.getD n1 0
        ∧ (if sti = -1 then 1 else itp.tis.length - 2)
          = (if sti = -1 then 1 else tiCount df)
        ∧ ((sti = -1 ∧ n1 = 0) ∨ (sti = 999 ∧ n1 = tiCount df + 1)) := by
      rcases hsti with rfl | rfl
      · exact ⟨0, by omega, hti0.symm, by norm_num, Or.inl ⟨rfl, rfl⟩⟩
      · refine ⟨tiCount df + 1, by omega, htiL.symm, ?_, Or.inr ⟨rfl, rfl⟩⟩
        rw [if_neg (by norm_num), if_neg (by norm_num), hlenT]
        omega
    obtain ⟨m1, hm1lt, hm1val, hmsel, hm1case⟩ := hm1ex
    obtain ⟨n1, hn1lt, hn1val, hnsel, hn1case⟩ := hn1ex
    set m2 : ℕ := if sws = -1 then 1 else wsCount df with hm2def
    set n2 : ℕ := if sti = -1 then 1 else tiCount df with hn2def
    have hm2lt : m2 < itp.wss.length := by
      rw [hm2def]
      split <;> omega
    have hn2lt : n2 < itp.tis.length := by
      rw [hn2def]
      split <;> omega
    -- the sentinel and edge nodes share their values
    have hval : ∀ i t, val4 itp i m1 n1 t = val4 itp i m2 n2 t := by
      intro i t
      rcases hm1case with ⟨hs, rfl⟩ | ⟨hs, rfl⟩ <;> rcases hn1case with ⟨ht, rfl⟩ | ⟨ht, rfl⟩
      · rw [hm2def, hn2def, if_pos hs, if_pos ht]
        rw [val4_ws_head df itp hvals, val4_ti_head df itp hvals]
      · rw [hm2def, hn2def, if_pos hs, if_neg (by rw [ht]; norm_num)]
        rw [val4_ws_head df itp hvals, val4_ti_last df itp hvals]
      · rw [hm2def, hn2def, if_neg (by rw [hs]; norm_num), if_pos ht]
        rw [val4_ws_last df itp hvals, val4_ti_head df itp hvals]
      · rw [hm2def, hn2def, if_neg (by rw [hs]; norm_num), if_neg (by rw [ht]; norm_num)]
        rw [val4_ws_last df itp hvals, val4_ti_last df itp hvals]
    -- bounds of the four query coordinates
    have hb1 := node_within_bounds itp.wss hascs2 m1 hm1lt
    have hb2 := node_within_bounds itp.wss hascs2 m2 hm2lt
    have hb3 := node_within_bounds itp.tis hasct2 n1 hn1lt
    have hb4 := node_within_bounds itp.tis hasct2 n2 hn2lt
    have hq1 := queryYawInterpolant_ok_of_inbounds itp wd (itp.wss.getD m1 0)
      (itp.tis.getD n1 0) hlo hhi hb1.1 hb1.2 hb3.1 hb3.2
    have hq2 := queryYawInterpolant_ok_of_inbounds itp wd (itp.wss.getD m2 0)
      (itp.tis.getD n2 0) hlo hhi hb2.1 hb2.2 hb4.1 hb4.2
    refine ⟨_, by rw [hm1val, hn1val]; exact hq1, ?_⟩
    rw [hmsel, hnsel, hq2]
    congr 1
    apply List.map_congr_left
    intro t _
    exact (interpValAt_nodes itp hascs2 hasct2 m1 m2 n1 n2 hm1lt hm2lt hn1lt hn2lt
      hval wd t).symm
  · intro wd ws ti h
    unfold queryYawInterpolant
    simp only [Option.getD_some]
    rw [if_pos h]

/-- Concrete four-row table exercising the interpolant boundary behaviour. -/
def tblC4 : DfOpt :=
  [⟨0, 8, 3/50, [1]⟩, ⟨0, 9, 3/50, [2]⟩, ⟨90, 8, 3/50, [3]⟩, ⟨90, 9, 3/50, [4]⟩]

/-- The interpolant built from `tblC4`. -/
def itpC4 : YawInterpolant :=
  ⟨itpWdAxis tblC4, itpWsAxis tblC4, itpTiAxis tblC4,
    medianQ (uniqueSorted (tblC4.map OptRow.ti)), itpVals tblC4⟩

/-- Witness for `interpolant_sentinel_and_bounds` at the concrete table
`tblC4`: the sentinel query at wind speed -1, turbulence intensity 999 agrees
with the corresponding edge-node query, and a wind speed of 1000 is rejected
with the bounds error. -/
theorem interpolant_sentinel_and_bounds_witness :
    (∃ v, queryYawInterpolant itpC4 45 (-1) (some 999) = .ok v
      ∧ queryYawInterpolant itpC4 45
          (itpC4.wss.getD (if (-1 : ℚ) = -1 then 1 else itpC4.wss.length - 2) 0)
          (some (itpC4.tis.getD (if (999 : ℚ) = -1 then 1 else itpC4.tis.length - 2) 0))
        = .ok v)
    ∧ queryYawInterpolant itpC4 45 1000 (some (3/50))
        = .error (.outOfBounds (listMin itpC4.wds) (listMax itpC4.wds)
            (listMin itpC4.wss) (listMax itpC4.wss) (listMin itpC4.tis)
            (listMax itpC4.tis) 45 1000 (3/50)) := by
  have h := interpolant_sentinel_and_bounds tblC4 itpC4 (by with_unfolding_all decide)
  exact ⟨h.1 45 (-1) 999 (Or.inl rfl) (Or.inr rfl)
      (by with_unfolding_all decide) (by with_unfolding_all decide),
    h.2 45 1000 (3/50)
      (Or.inr (Or.inr (Or.inr (Or.inl (by with_unfolding_all decide)))))⟩

/-! ### Wrap-around of the wind-direction axis -/

theorem rawVals_length (df : DfOpt) : (rawVals df).length = wdCount df := by
  simp [rawVals]

theorem extVals_getD_wrap (df : DfOpt) (hw : wrapWd df = true)
    (hne : rawVals df ≠ []) :
    (extVals df).getD (wdCount df) [] = (extVals df).getD 0 [] := by
  have hlen := rawVals_length df
  have hpos : 0 < (rawVals df).length := List.length_pos.mpr hne
  unfold extVals
  rw [if_pos hw]
  rw [List.getD_eq_getElem?_getD, List.getD_eq_getElem?_getD,
    List.getElem?_append_right (by omega), List.getElem?_append_left hpos]
  have h0 : wdCount df - (rawVals df).length = 0 := by omega
  rw [h0, List.getElem?_take]
  simp

theorem val4_wd_wrap (df : DfOpt) (itp : YawInterpolant) (hv : itp.vals = itpVals df)
    (hw : wrapWd df = true) (hne : rawVals df ≠ []) (j k t : ℕ) :
    val4 itp (wdCount df) j k t = val4 itp 0 j k t := by
  unfold val4
  rw [hv, itpVals_getD, itpVals_getD, extVals_getD_wrap df hw hne]

/-- C6: for every table accepted by `get_yaw_angles_interpolant` whose smallest
sampled wind direction is exactly 0 degrees, the wind-direction axis is
extended to 360 and, for every in-range wind speed and turbulence intensity,
querying wind direction 360 succeeds and returns exactly the same offset vector
as querying wind direction 0; if 0 degrees is not present, the wind-direction
axis is kept exactly as sampled (the only effect in the code is a printed
notice, not an error). -/
theorem interpolant_wind_direction_wrap (df : DfOpt) (itp : YawInterpolant)
    (hok : getYawAnglesInterpolant df = .ok itp) :
    ((uniqueSorted (df.map OptRow.wd)).headD 0 = 0 →
      itp.wds = uniqueSorted (df.map OptRow.wd) ++ [360]
      ∧ ∀ ws ti, listMin itp.wss ≤ ws → ws ≤ listMax itp.wss →
          listMin itp.tis ≤ ti → ti ≤ listMax itp.tis →
          ∃ v, queryYawInterpolant itp 360 ws (some ti) = .ok v
            ∧ queryYawInterpolant itp 0 ws (some ti) = .ok v)
    ∧ ((uniqueSorted (df.map OptRow.wd)).headD 0 ≠ 0 →
      itp.wds = uniqueSorted (df.map OptRow.wd)) := by
  obtain ⟨hne, hall, hitp, hascw, hascs, hasct⟩ := getYawAnglesInterpolant_ok df itp hok
  have hwds : itp.wds = itpWdAxis df := by rw [hitp]
  have hvals : itp.vals = itpVals df := by rw [hitp]
  constructor
  · intro h0
    have hw : wrapWd df = true := by
      unfold wrapWd
      rw [decide_eq_true_eq]
      exact h0
    have hwdUne : uniqueSorted (df.map OptRow.wd) ≠ [] := by
      intro hc
      exact hne (List.map_eq_nil_iff.mp ((uniqueSorted_eq_nil_iff _).mp hc))
    have hwdpos : 0 < wdCount df := by
      unfold wdCount
      exact List.length_pos.mpr hwdUne
    have hwdseq : itp.wds = uniqueSorted (df.map OptRow.wd) ++ [360] := by
      rw [hwds]
      unfold itpWdAxis
      rw [if_pos hw]
    refine ⟨hwdseq, ?_⟩
    have hascw2 : strictAscB itp.wds = true := by rw [hwds]; exact hascw
    have hlenW : itp.wds.length = wdCount df + 1 := by
      rw [hwdseq]
      unfold wdCount
      simp
    have hwd0 : itp.wds.getD 0 0 = 0 := by
      rw [hwdseq]
      cases hcu : uniqueSorted (df.map OptRow.wd) with
      | nil => cases hwdUne hcu
      | cons a l =>
          show a = 0
          rw [hcu] at h0
          exact h0
    have hwdL : itp.wds.getD (wdCount df) 0 = 360 := by
      rw [hwdseq]
      unfold wdCount
      exact getD_append_singleton_last _ (360 : ℚ) 0
    have hminwd : listMin itp.wds = 0 := by
      rw [listMin_eq_head itp.wds hascw2 (by rw [hwdseq]; simp)]
      rw [← hwd0]
      cases hcw : itp.wds with
      | nil => rw [hcw] at hlenW; simp at hlenW
      | cons a l => rfl
    have hmaxwd : listMax itp.wds = 360 := by
      rw [listMax_eq_last itp.wds hascw2 (by rw [hwdseq]; simp), hwdseq,
        List.getLastD_concat]
    have hrne : rawVals df ≠ [] := by
      intro hc
      have := rawVals_length df
      rw [hc] at this
      simp at this
      omega
    have hinterp : ∀ ws ti t, interpValAt itp 360 ws ti t = interpValAt itp 0 ws ti t := by
      intro ws ti t
      unfold interpValAt
      have e1 := linAxis_at_node itp.wds hascw2
        (fun i => linAxis itp.wss ws (fun j =>
          linAxis itp.tis ti (fun k => val4 itp i j k t))) (wdCount df) (by omega)
      have e2 := linAxis_at_node itp.wds hascw2
        (fun i => linAxis itp.wss ws (fun j =>
          linAxis itp.tis ti (fun k => val4 itp i j k t))) 0 (by omega)
      rw [hwdL] at e1
      rw [hwd0] at e2
      rw [e1, e2]
      apply linAxis_congr
      intro j
      apply linAxis_congr
      intro k
      exact val4_wd_wrap df itp hvals hw hrne j k t
    intro ws ti hws1 hws2 hti1 hti2
    have hq360 := queryYawInterpolant_ok_of_inbounds itp 360 ws ti
      (by rw [hminwd]; norm_num) (by rw [hmaxwd]) hws1 hws2 hti1 hti2
    have hq0 := queryYawInterpolant_ok_of_inbounds itp 0 ws ti
      (by rw [hminwd]) (by rw [hmaxwd]; norm_num) hws1 hws2 hti1 hti2
    refine ⟨_, ?_, hq0⟩
    rw [hq360]
    congr 1
    apply List.map_congr_left
    intro t _
    exact hinterp ws ti t
  · intro h0
    have hw : wrapWd df = false := by
      unfold wrapWd
      rw [decide_eq_false h0]
    rw [hwds]
    unfold itpWdAxis
    rw [hw]
    simp

/-- Concrete four-direction table starting at 0 degrees, for the wrap test. -/
def tblC6 : DfOpt :=
  [⟨0, 8, 3/50, [1]⟩, ⟨90, 8, 3/50, [2]⟩, ⟨180, 8, 3/50, [3]⟩, ⟨270, 8, 3/50, [4]⟩]

/-- The interpolant built from `tblC6`. -/
def itpC6 : YawInterpolant :=
  ⟨itpWdAxis tblC6, itpWsAxis tblC6, itpTiAxis tblC6,
    medianQ (uniqueSorted (tblC6.map OptRow.ti)), itpVals tblC6⟩

/-- Witness for `interpolant_wind_direction_wrap` at `tblC6`: the axis is
extended to 360 and querying 360 degrees returns the same vector as 0. -/
theorem interpolant_wind_direction_wrap_witness :
    itpC6.wds = uniqueSorted (tblC6.map OptRow.wd) ++ [360]
    ∧ ∃ v, queryYawInterpolant itpC6 360 8 (some (3/50)) = .ok v
        ∧ queryYawInterpolant itpC6 0 8 (some (3/50)) = .ok v := by
  have h := (interpolant_wind_direction_wrap tblC6 itpC6
    (by with_unfolding_all decide)).1 (by with_unfolding_all decide)
  exact ⟨h.1, h.2 8 (3/50) (by with_unfolding_all decide)
    (by with_unfolding_all decide) (by with_unfolding_all decide)
    (by with_unfolding_all decide)⟩

/-! ### The lookup-based wake steering controller -/

/-- The yaw initial condition of the controller: a float or a list of floats
(`hasattr(yaw_IC, "__len__")` distinguishes the two). -/
inductive YawIC where
  | scalar (x : ℚ)
  | vec (xs : List ℚ)
  deriving DecidableEq, Repr

/-- The state of a `LookupBasedWakeSteeringController`: turbine count, the
optional interpolant, the optional hysteresis zones, the `yaw_angles` entry of
`controls_dict`, and the stored last-valid wind directions `wd_store`. -/
structure CtrlState where
  nTurbines : ℕ
  wakeSteeringInterpolant : Option YawInterpolant
  hysteresisDict : Option (List (String × List (ℚ × ℚ)))
  controlsDict : List ℚ
  wdStore : List ℚ
  deriving DecidableEq, Repr

/-- Initial-condition and startup part of the constructor: `controls_dict`
from `yaw_IC` (a wrong-length list raises `TypeError`), `wd_store` at 270
degrees per turbine. -/
def mkRest (itpO : Option YawInterpolant)
    (hyst : Option (List (String × List (ℚ × ℚ)))) (n : ℕ) (yawIC : YawIC) :
    Except DesignError CtrlState :=
  match yawIC with
  | .vec xs =>
      if xs.length = n then .ok ⟨n, itpO, hyst, xs, List.replicate n 270⟩
      else .error .badYawInitialCondition
  | .scalar x => .ok ⟨n, itpO, hyst, List.replicate n x, List.replicate n 270⟩

/-- `LookupBasedWakeSteeringController.__init__`: hysteresis zones without a
table raise `ValueError`; a supplied table is turned into the interpolant
(propagating its errors); then initial conditions and the startup store. -/
def mkLookupController (dfYaw : Option DfOpt)
    (hyst : Option (List (String × List (ℚ × ℚ)))) (n : ℕ) (yawIC : YawIC) :
    Except DesignError CtrlState :=
  match dfYaw with
  | none =>
      if hyst.isSome then .error .hysteresisWithoutOffsets
      else mkRest none hyst n yawIC
  | some df =>
      match getYawAnglesInterpolant df with
      | .error e => .error e
      | .ok itp => mkRest (some itp) hyst n yawIC

/-- The interpolant closure on arrays of query points
(`np.column_stack((wd_array, ws_array, ti_array))`): a missing turbulence
array defaults to `ti_ref` everywhere; if any entry is out of bounds, the
bounds `ValueError` with the arrays is raised; otherwise one offset vector per
query point. -/
def queryYawInterpolantVec (itp : YawInterpolant) (wds wss : List ℚ)
    (tiO : Option (List ℚ)) : Except DesignError (List (List ℚ)) :=
  let tis := tiO.getD (List.replicate wds.length itp.tiRef)
  if wds.any (fun x => decide (x < listMin itp.wds))
      ∨ wds.any (fun x => decide (x > listMax itp.wds))
      ∨ wss.any (fun x => decide (x < listMin itp.wss))
      ∨ wss.any (fun x => decide (x > listMax itp.wss))
      ∨ tis.any (fun x => decide (x < listMin itp.tis))
      ∨ tis.any (fun x => decide (x > listMax itp.tis)) then
    .error (.outOfBoundsVec (listMin itp.wds) (listMax itp.wds)
      (listMin itp.wss) (listMax itp.wss) (listMin itp.tis) (listMax itp.tis)
      wds wss tis)
  else
    .ok ((List.range wds.length).map (fun i =>
      (List.range (numTurbines itp)).map (fun t =>
        interpValAt itp (wds.getD i 0) (wss.getD i 0) (tis.getD i 0) t)))

/-- `wake_steering_angles` (the body of `compute_controls`): an empty
wind-direction measurement is replaced by `wd_store` (store unchanged), a
non-empty one overwrites the store; without an interpolant the setpoints are
the wind directions themselves; with one, the per-turbine offsets are the
diagonal of the interpolated array and are subtracted from the directions;
a hysteresis dictionary raises `NotImplementedError`. -/
def wakeSteeringAngles (st : CtrlState) (windDirections : List ℚ) :
    Except DesignError CtrlState :=
  let windSpeeds : List ℚ := List.replicate st.nTurbines 8
  let wds := if windDirections.isEmpty then st.wdStore else windDirections
  let store := if windDirections.isEmpty then st.wdStore else windDirections
  match st.wakeSteeringInterpolant with
  | none =>
      if st.hysteresisDict.isSome then .error .notImplemented
      else .ok { st with controlsDict := wds, wdStore := store }
  | some itp =>
      match queryYawInterpolantVec itp wds windSpeeds none with
      | .error e => .error e
      | .ok angles =>
          let yawOffsets := (List.range wds.length).map (fun i =>
            (angles.getD i []).getD i 0)
          let yawSetpoint := (List.range wds.length).map (fun i =>
            wds.getD i 0 - yawOffsets.getD i 0)
          if st.hysteresisDict.isSome then .error .notImplemented
          else .ok { st with controlsDict := yawSetpoint, wdStore := store }

theorem mkRest_ok_fields (itpO : Option YawInterpolant)
    (hy : Option (List (String × List (ℚ × ℚ)))) (n : ℕ) (ic : YawIC)
    (st : CtrlState) (h : mkRest itpO hy n ic = .ok st) :
    st.wakeSteeringInterpolant = itpO ∧ st.hysteresisDict = hy
      ∧ st.wdStore = List.replicate n 270 := by
  cases ic with
  | vec xs =>
      simp only [mkRest] at h
      split at h
      · rw [Except.ok.injEq] at h
        rw [← h]
        exact ⟨rfl, rfl, rfl⟩
      · cases h
  | scalar x =>
      simp only [mkRest] at h
      rw [Except.ok.injEq] at h
      rw [← h]
      exact ⟨rfl, rfl, rfl⟩

theorem wakeSteeringAngles_ok_store (st : CtrlState) (ms : List ℚ) (st2 : CtrlState)
    (h : wakeSteeringAngles st ms = .ok st2) :
    st2.wdStore = if ms.isEmpty then st.wdStore else ms := by
  simp only [wakeSteeringAngles] at h
  split at h
  · split at h
    · cases h
    · rw [Except.ok.injEq] at h
      rw [← h]
  · split at h
    · cases h
    · split at h
      · cases h
      · rw [Except.ok.injEq] at h
        rw [← h]

/-- C10: a controller constructed with no yaw-offset table and no hysteresis
dictionary passes every non-empty wind-direction measurement straight through:
`compute_controls` returns the state whose `yaw_angles` setpoints are exactly
the measured directions (zero offset), which also overwrite the store. -/
theorem lookup_controller_pass_through (n : ℕ) (ic : YawIC) (st : CtrlState)
    (hmk : mkLookupController none none n ic = .ok st)
    (ms : List ℚ) (hms : ms ≠ []) :
    wakeSteeringAngles st ms = .ok { st with controlsDict := ms, wdStore := ms } := by
  have hmk2 : mkRest none none n ic = .ok st := by
    simp only [mkLookupController, Option.isSome_none, Bool.false_eq_true,
      if_false] at hmk
    exact hmk
  obtain ⟨hint, hh, hstore⟩ := mkRest_ok_fields none none n ic st hmk2
  have hempty : ms.isEmpty = false := by
    cases ms with
    | nil => cases hms rfl
    | cons a l => rfl
  simp only [wakeSteeringAngles, hempty, Bool.false_eq_true, if_false]
  rw [hint]
  rw [hh]
  simp

/-- The state built by the constructor with no table, two turbines and yaw
initial condition `[250, 260]`. -/
def stC10 : CtrlState := ⟨2, none, none, [250, 260], List.replicate 2 270⟩

/-- Witness for `lookup_controller_pass_through`: the constructed state passes
the measurement `[271, 272.5]` through as exact setpoints `[271, 272.5]`. -/
theorem lookup_controller_pass_through_witness :
    mkLookupController none none 2 (.vec [250, 260]) = .ok stC10
    ∧ wakeSteeringAngles stC10 [271, 545/2]
        = .ok { stC10 with controlsDict := [271, 545/2], wdStore := [271, 545/2] } := by
  exact ⟨by with_unfolding_all decide,
    lookup_controller_pass_through 2 (.vec [250, 260]) stC10
      (by with_unfolding_all decide) [271, 545/2] (by with_unfolding_all decide)⟩

/-- C8: for every controller state, an empty wind-direction measurement is
handled exactly like re-submitting the stored last-valid measurement; a
successful call with an empty measurement leaves the store unchanged while a
successful call with a non-empty one overwrites it with the measurement; with
no hysteresis zones the empty-measurement call succeeds (no raise) with the
store unchanged both when no interpolant is present (setpoints are the stored
directions) and when an interpolant is present and the stored directions, the
fixed 8 m/s wind speeds and the reference turbulence intensity are all within
its bounds; and the constructor initializes the store to 270 degrees per
turbine. -/
theorem wake_steering_empty_measurement (st : CtrlState) :
    wakeSteeringAngles st [] = wakeSteeringAngles st st.wdStore
    ∧ (∀ st2, wakeSteeringAngles st [] = .ok st2 → st2.wdStore = st.wdStore)
    ∧ (∀ ms st2, ms ≠ [] → wakeSteeringAngles st ms = .ok st2 → st2.wdStore = ms)
    ∧ (st.hysteresisDict = none → st.wakeSteeringInterpolant = none →
        wakeSteeringAngles st [] = .ok { st with controlsDict := st.wdStore })
    ∧ (st.hysteresisDict = none → ∀ itp, st.wakeSteeringInterpolant = some itp →
        (∀ x ∈ st.wdStore, listMin itp.wds ≤ x ∧ x ≤ listMax itp.wds) →
        (listMin itp.wss ≤ 8 ∧ (8 : ℚ) ≤ listMax itp.wss) →
        (listMin itp.tis ≤ itp.tiRef ∧ itp.tiRef ≤ listMax itp.tis) →
        ∃ st2, wakeSteeringAngles st [] = .ok st2 ∧ st2.wdStore = st.wdStore)
    ∧ (∀ dfY hy n ic, mkLookupController dfY hy n ic = .ok st →
        st.wdStore = List.replicate n 270) := by
  refine ⟨?_, ?_, ?_, ?_, ?_, ?_⟩
  · by_cases hst : st.wdStore = []
    · rw [hst]
    · have h2 : st.wdStore.isEmpty = false := by
        cases hcs : st.wdStore with
        | nil => cases hst hcs
        | cons a l => rfl
      simp only [wakeSteeringAngles, List.isEmpty_nil, if_true, h2,
        Bool.false_eq_true, if_false]
  · intro st2 h
    have := wakeSteeringAngles_ok_store st [] st2 h
    simpa using this
  · intro ms st2 hms h
    have hempty : ms.isEmpty = false := by
      cases ms with
      | nil => cases hms rfl
      | cons a l => rfl
    have := wakeSteeringAngles_ok_store st ms st2 h
    rw [hempty] at this
    simpa using this
  · intro hh hint
    simp only [wakeSteeringAngles, List.isEmpty_nil, if_true]
    rw [hint, hh]
    simp
  · intro hh itp hint hwdb hwsb htib
    obtain ⟨n, io, hy, cd, wst⟩ := st
    simp only at hint hh hwdb ⊢
    subst hint
    subst hh
    have hq : ∃ v, queryYawInterpolantVec itp wst (List.replicate n 8) none = .ok v := by
      simp only [queryYawInterpolantVec, Option.getD_none]
      rw [if_neg (by
        intro hc
        rcases hc with hc | hc | hc | hc | hc | hc
        · rw [List.any_eq_true] at hc
          obtain ⟨x, hx, hxp⟩ := hc
          rw [decide_eq_true_eq] at hxp
          exact absurd hxp (not_lt.mpr (hwdb x hx).1)
        · rw [List.any_eq_true] at hc
          obtain ⟨x, hx, hxp⟩ := hc
          rw [decide_eq_true_eq] at hxp
          exact absurd hxp (not_lt.mpr (hwdb x hx).2)
        · rw [List.any_eq_true] at hc
          obtain ⟨x, hx, hxp⟩ := hc
          rw [decide_eq_true_eq] at hxp
          rw [List.eq_of_mem_replicate hx] at hxp
          exact absurd hxp (not_lt.mpr hwsb.1)
        · rw [List.any_eq_true] at hc
          obtain ⟨x, hx, hxp⟩ := hc
          rw [decide_eq_true_eq] at hxp
          rw [List.eq_of_mem_replicate hx] at hxp
          exact absurd hxp (not_lt.mpr hwsb.2)
        · rw [List.any_eq_true] at hc
          obtain ⟨x, hx, hxp⟩ := hc
          rw [decide_eq_true_eq] at hxp
          rw [List.eq_of_mem_replicate hx] at hxp
          exact absurd hxp (not_lt.mpr htib.1)
        · rw [List.any_eq_true] at hc
          obtain ⟨x, hx, hxp⟩ := hc
          rw [decide_eq_true_eq] at hxp
          rw [List.eq_of_mem_replicate hx] at hxp
          exact absurd hxp (not_lt.mpr htib.2))]
      exact ⟨_, rfl⟩
    obtain ⟨v, hq⟩ := hq
    refine ⟨⟨n, some itp, none,
      (List.range wst.length).map (fun i => wst.getD i 0 -
        ((List.range wst.length).map (fun i2 => (v.getD i2 []).getD i2 0)).getD i 0),
      wst⟩, ?_, rfl⟩
    simp only [wakeSteeringAngles]
    have hq2 : queryYawInterpolantVec itp
        (if ([] : List ℚ).isEmpty then wst else ([] : List ℚ))
        (List.replicate n 8) none = .ok v := hq
    rw [hq2]
    rfl
  · intro dfY hy n ic h
    cases dfY with
    | none =>
        simp only [mkLookupController] at h
        split at h
        · cases h
        · exact (mkRest_ok_fields none hy n ic st h).2.2
    | some df =>
        simp only [mkLookupController] at h
        split at h
        · cases h
        · rename_i itp heq
          exact (mkRest_ok_fields (some itp) hy n ic st h).2.2

/-- Two-direction table for the hysteresis counterexample. -/
def tblC8 : DfOpt := [⟨0, 8, 3/50, [10]⟩, ⟨90, 8, 3/50, [10]⟩]

/-- Counterexample to the unconditional no-raise in C8: a controller
constructed with a table AND hysteresis zones is reachable, and its
`compute_controls` with an empty measurement raises `NotImplementedError`
(after substituting the stored measurement), so an empty measurement can
raise. -/
theorem empty_measurement_raises_with_hysteresis :
    ∃ st, mkLookupController (some tblC8) (some [("T000", [(250, 260)])]) 1
        (.vec [270]) = .ok st
      ∧ wakeSteeringAngles st [] = .error .notImplemented := by
  refine ⟨⟨1, some ⟨itpWdAxis tblC8, itpWsAxis tblC8, itpTiAxis tblC8,
      medianQ (uniqueSorted (tblC8.map OptRow.ti)), itpVals tblC8⟩,
      some [("T000", [(250, 260)])], [270], List.replicate 1 270⟩,
    by with_unfolding_all decide, by with_unfolding_all decide⟩

/-- The interpolant built from `tblC8`. -/
def itpC8 : YawInterpolant :=
  ⟨itpWdAxis tblC8, itpWsAxis tblC8, itpTiAxis tblC8,
    medianQ (uniqueSorted (tblC8.map OptRow.ti)), itpVals tblC8⟩

/-- A controller state holding the `tblC8` interpolant, no hysteresis, and
the startup store of 270 degrees for its one turbine. -/
def stC8b : CtrlState := ⟨1, some itpC8, none, [270], [270]⟩

/-- Witness for `wake_steering_empty_measurement`: at the concrete state built
by the constructor with no table, no hysteresis, two turbines and scalar yaw
initial condition 260, the empty-measurement call succeeds with the stored
270s, the store is the initial 270 per turbine, and the call equals
re-submission; and at a state holding an interpolant whose bounds contain the
stored 270, the fixed 8 m/s and the reference turbulence intensity, the
empty-measurement call also succeeds with the store unchanged. -/
theorem wake_steering_empty_measurement_witness :
    (∃ st, mkLookupController none none 2 (.scalar 260) = .ok st
      ∧ wakeSteeringAngles st [] = .ok { st with controlsDict := st.wdStore }
      ∧ st.wdStore = List.replicate 2 270
      ∧ wakeSteeringAngles st [] = wakeSteeringAngles st st.wdStore)
    ∧ (∃ st2, wakeSteeringAngles stC8b [] = .ok st2
      ∧ st2.wdStore = stC8b.wdStore) := by
  constructor
  · refine ⟨⟨2, none, none, List.replicate 2 260, List.replicate 2 270⟩,
      by with_unfolding_all decide, ?_, ?_, ?_⟩
    · exact (wake_steering_empty_measurement _).2.2.2.1 rfl rfl
    · exact (wake_steering_empty_measurement _).2.2.2.2.2 none none 2 (.scalar 260)
        (by with_unfolding_all decide)
    · exact (wake_steering_empty_measurement _).1
  · exact (wake_steering_empty_measurement stC8b).2.2.2.2.1 rfl itpC8 rfl
      (by with_unfolding_all decide) (by with_unfolding_all decide)
      (by with_unfolding_all decide)
